import Mathlib

/-!
# Verification of the AwesomeBank ledger system (`src/bank_system.py`)

A shallow embedding of `bank_system.py` together with proofs about it.

Modelling conventions, chosen to mirror the Python source faithfully:

* Python `Decimal` amounts and rates are modelled as exact rationals (`ℚ`).
  All amounts posted by the system are parsed from decimal literals with at
  most a few fractional digits, and the only inexact `Decimal` operation in
  the source is the division in `calculate_interest`, which Python performs
  at 28 significant digits; it is modelled exactly over `ℚ`.
  `Decimal.quantize(Decimal('0.01'), rounding=ROUND_HALF_UP)` is modelled by
  `quantize2` (round half away from zero at the second decimal place).
* Calendar dates are stored by the Python code as `YYYYMMDD` strings and
  compared lexicographically; since every stored date is a validated
  fixed-width 8-digit string, lexicographic order coincides with numeric
  order, so the embedding stores a date as its numeric value (a `ℕ` such as
  20230626) and compares numerically.  `datetime.strftime('%Y%m%d')` of a
  date in month `(y, m)` and day `d` corresponds to the number
  `mkDate y m d` (years are zero-padded to 4 digits).
* Tokenised input: the Python entry points receive one line and split it on
  whitespace; the embedding receives the resulting token list
  (`List String`), as the spec's §6 explicitly allows.  Digit tests use
  ASCII digits; `Decimal` literal parsing covers the plain
  `[sign] digits [. digits]` form (scientific notation, underscores and
  special values such as NaN are not produced by any input considered here).
* The formatted report strings built by `get_account_statement`,
  `get_interest_rules_display` and `print_statement` are a presentation
  concern (spec §6); the embedding returns the data those reports render
  (`ServiceOutput`), keeping the exact error-message strings, which are the
  behaviourally relevant outputs.
* A Python exception escaping a request is modelled by `Except.error`; a
  string returned to the caller is `Except.ok`.
-/

namespace AwesomeBank

set_option maxRecDepth 4000

/-!
Decidable-equality instances that evaluate by comparing the underlying
numerals directly.  (The library instances for `ℚ`, `Option` and derived
structure instances reduce a rational `n` by unary recursion on `n`, which
makes kernel evaluation of concrete ledger states infeasible; these
instances decide the same propositions through `Int`/`Nat` literal
comparisons.)
-/

instance ratDecEqFast : DecidableEq ℚ := fun a b =>
  if h : a.num = b.num ∧ a.den = b.den then
    isTrue (by
      rcases a with ⟨n1, d1, _, _⟩
      rcases b with ⟨n2, d2, _, _⟩
      cases h.1; cases h.2; rfl)
  else isFalse (by intro hab; exact h (by cases hab; exact ⟨rfl, rfl⟩))

instance optionDecEqFast {α : Type} [DecidableEq α] : DecidableEq (Option α) := fun a b =>
  match a, b with
  | none, none => isTrue rfl
  | some x, some y =>
    if h : x = y then isTrue (by rw [h])
    else isFalse (by intro hh; cases hh; exact h rfl)
  | none, some _ => isFalse (by intro hh; cases hh)
  | some _, none => isFalse (by intro hh; cases hh)

/-- Decidable equality for `Except`, used to evaluate the embedding on
concrete inputs. -/
instance {α β : Type} [DecidableEq α] [DecidableEq β] : DecidableEq (Except α β) :=
  fun x y =>
    match x, y with
    | .ok a, .ok b =>
      if h : a = b then isTrue (by rw [h])
      else isFalse (by intro hh; cases hh; exact h rfl)
    | .error a, .error b =>
      if h : a = b then isTrue (by rw [h])
      else isFalse (by intro hh; cases hh; exact h rfl)
    | .ok _, .error _ => isFalse (by intro hh; cases hh)
    | .error _, .ok _ => isFalse (by intro hh; cases hh)

/-! ## Strings and numbers -/

/-- Numeric value of a list of ASCII digit characters (most significant first). -/
def digitsToNat (cs : List Char) : ℕ :=
  cs.foldl (fun a c => a * 10 + (c.toNat - 48)) 0

/-- Numeric value of an all-digit string, e.g. `strToNat "20230626" = 20230626`. -/
def strToNat (s : String) : ℕ := digitsToNat s.data

/-- Python `int(s)` for the non-negative case: succeeds on a non-empty
all-digit string, otherwise raises (modelled by `none`). -/
def parseIntStr (s : String) : Option ℕ :=
  if s.data ≠ [] ∧ s.data.all Char.isDigit then some (digitsToNat s.data) else none

/-- Python `str.upper()` (ASCII, which is all the source ever feeds it). -/
def strUpper (s : String) : String := ⟨s.data.map Char.toUpper⟩

/-- Python `f-string` `{n:02d}` for a non-negative `n`: decimal digits of `n`,
zero-padded on the left to width 2. -/
def pad2 (n : ℕ) : String :=
  if n < 10 then "0" ++ Nat.repr n else Nat.repr n

/-- Parse a Python `Decimal` literal of the plain form
`[+|-] digits [. digits]` (with at least one digit).  Returns the exact
rational value together with the `Decimal` exponent, i.e. minus the number
of digits written after the decimal point (`Decimal(s).as_tuple().exponent`).
Returns `none` when `Decimal(s)` would raise. -/
def parseDecimal (s : String) : Option (ℚ × ℤ) :=
  let signAndDigits : ℚ × List Char :=
    match s.data with
    | '-' :: rest => (-1, rest)
    | '+' :: rest => (1, rest)
    | cs => (1, cs)
  let sign := signAndDigits.1
  let cs := signAndDigits.2
  let intPart := cs.takeWhile Char.isDigit
  let rest := cs.dropWhile Char.isDigit
  match rest with
  | [] =>
    if intPart = [] then none
    else some (sign * (digitsToNat intPart : ℚ), 0)
  | '.' :: frac =>
    if frac.all Char.isDigit ∧ (intPart ≠ [] ∨ frac ≠ []) then
      some (sign * ((digitsToNat intPart : ℚ) + (digitsToNat frac : ℚ) / (10 : ℚ) ^ frac.length),
            -(frac.length : ℤ))
    else none
  | _ => none

/-! ## Calendar -/

/-- Gregorian leap year, as implemented by Python's `datetime`. -/
def isLeapYear (y : ℕ) : Bool :=
  y % 4 == 0 && (y % 100 != 0 || y % 400 == 0)

/-- Number of days in month `m` of year `y`.  The source computes this as
`datetime(y, m+1, 1) - timedelta(days=1)` (with the December special case),
whose day-of-month is exactly this value. -/
def daysInMonth (y m : ℕ) : ℕ :=
  if m = 2 then (if isLeapYear y then 29 else 28)
  else if m = 4 ∨ m = 6 ∨ m = 9 ∨ m = 11 then 30
  else 31

/-- Numeric value of the `YYYYMMDD` string for year `y`, month `m`, day `d`. -/
def mkDate (y m d : ℕ) : ℕ := y * 10000 + m * 100 + d

/-- `BankingSystem.validate_date`: the string is exactly 8 ASCII digits and
`datetime.strptime(s, '%Y%m%d')` succeeds, i.e. the digits form a real
calendar date (year ≥ 1, month 1–12, day within the month). -/
def validate_date (s : String) : Bool :=
  s.length == 8 && s.data.all Char.isDigit &&
    (let y := digitsToNat (s.data.take 4)
     let m := digitsToNat ((s.data.drop 4).take 2)
     let d := digitsToNat (s.data.drop 6)
     decide (1 ≤ y) && decide (1 ≤ m) && decide (m ≤ 12) &&
       decide (1 ≤ d) && decide (d ≤ daysInMonth y m))

/-- `BankingSystem.validate_amount`: parses as a `Decimal`, is strictly
positive, and has at most 2 fractional digits. -/
def validate_amount (s : String) : Bool :=
  match parseDecimal s with
  | none => false
  | some ve => decide (0 < ve.1) && decide (-2 ≤ ve.2)

/-! ## Rounding -/

/-- `Decimal.quantize(Decimal('0.01'), rounding=ROUND_HALF_UP)`:
round to 2 decimal places, ties away from zero. -/
def quantize2 (q : ℚ) : ℚ :=
  if 0 ≤ q then ((⌊q * 100 + 1 / 2⌋ : ℤ) : ℚ) / 100
  else -(((⌊-q * 100 + 1 / 2⌋ : ℤ) : ℚ) / 100)

/-! ## Data model -/

/-- The `Transaction` class.  `date` is the numeric value of the stored
`YYYYMMDD` date string; `txn_type` is stored uppercased (the constructor
applies `.upper()`); `txn_id` is `""` for system-generated interest rows. -/
structure Transaction where
  date : ℕ
  account : String
  txn_type : String
  amount : ℚ
  txn_id : String

instance : DecidableEq Transaction := fun a b =>
  match a, b with
  | ⟨d1, a1, t1, m1, i1⟩, ⟨d2, a2, t2, m2, i2⟩ =>
    if h : d1 = d2 ∧ a1 = a2 ∧ t1 = t2 ∧ m1 = m2 ∧ i1 = i2 then
      isTrue (by obtain ⟨rfl, rfl, rfl, rfl, rfl⟩ := h; rfl)
    else isFalse (by intro hab; cases hab; exact h ⟨rfl, rfl, rfl, rfl, rfl⟩)

/-- The `InterestRule` class. -/
structure InterestRule where
  date : ℕ
  rule_id : String
  rate : ℚ

instance : DecidableEq InterestRule := fun a b =>
  match a, b with
  | ⟨d1, i1, r1⟩, ⟨d2, i2, r2⟩ =>
    if h : d1 = d2 ∧ i1 = i2 ∧ r1 = r2 then
      isTrue (by obtain ⟨rfl, rfl, rfl⟩ := h; rfl)
    else isFalse (by intro hab; cases hab; exact h ⟨rfl, rfl, rfl⟩)

/-- The `Account` class: ledger entries in insertion order plus the stored
running balance. -/
structure Account where
  account_id : String
  transactions : List Transaction
  balance : ℚ

instance : DecidableEq Account := fun a b =>
  match a, b with
  | ⟨i1, t1, b1⟩, ⟨i2, t2, b2⟩ =>
    if h : i1 = i2 ∧ t1 = t2 ∧ b1 = b2 then
      isTrue (by obtain ⟨rfl, rfl, rfl⟩ := h; rfl)
    else isFalse (by intro hab; cases hab; exact h ⟨rfl, rfl, rfl⟩)

/-- `Account.__init__`. -/
def Account.new (id : String) : Account := ⟨id, [], 0⟩

/-- `Account.add_transaction`: a withdrawal first checks the stored balance
and raises `ValueError` (modelled by `.error`) on insufficient funds without
appending; deposits and interest add to the balance; any entry that passes
the checks is appended. -/
def Account.add_transaction (a : Account) (t : Transaction) : Except String Account :=
  if t.txn_type = "W" then
    if a.balance < t.amount then .error "Insufficient balance for withdrawal"
    else .ok { a with balance := a.balance - t.amount, transactions := a.transactions ++ [t] }
  else if t.txn_type = "D" ∨ t.txn_type = "I" then
    .ok { a with balance := a.balance + t.amount, transactions := a.transactions ++ [t] }
  else .ok { a with transactions := a.transactions ++ [t] }

/-- `Account.get_balance_at_date`: sum, in insertion order, of the signed
amounts of all entries dated on or before `target` (withdrawals subtract,
all other kinds add). -/
def Account.get_balance_at_date (a : Account) (target : ℕ) : ℚ :=
  a.transactions.foldl
    (fun b t =>
      if t.date ≤ target then
        (if t.txn_type = "W" then b - t.amount else b + t.amount)
      else b)
    0

/-- The `BankingSystem` state: account dictionary (insertion-ordered
association list, as a Python `dict`), interest-rule list, and the per-date
transaction-id counters. -/
structure BankingSystem where
  accounts : List (String × Account)
  interest_rules : List InterestRule
  transaction_counters : List (ℕ × ℕ)

instance : DecidableEq BankingSystem := fun a b =>
  match a, b with
  | ⟨a1, r1, c1⟩, ⟨a2, r2, c2⟩ =>
    if h : a1 = a2 ∧ r1 = r2 ∧ c1 = c2 then
      isTrue (by obtain ⟨rfl, rfl, rfl⟩ := h; rfl)
    else isFalse (by intro hab; cases hab; exact h ⟨rfl, rfl, rfl⟩)

/-- `BankingSystem.__init__`: everything empty. -/
def initState : BankingSystem := ⟨[], [], []⟩

/-- Dictionary lookup (`d[k]` / `k in d`). -/
def lookupAcc : List (String × Account) → String → Option Account
  | [], _ => none
  | kv :: rest, id => if kv.1 = id then some kv.2 else lookupAcc rest id

/-- Dictionary write `d[k] = v`: replaces the value at an existing key,
appends a new key at the end (Python dict insertion order). -/
def setAcc : List (String × Account) → String → Account → List (String × Account)
  | [], id, acc => [(id, acc)]
  | kv :: rest, id, acc =>
    if kv.1 = id then (kv.1, acc) :: rest else kv :: setAcc rest id acc

/-- Counter-dictionary lookup. -/
def lookupCtr : List (ℕ × ℕ) → ℕ → Option ℕ
  | [], _ => none
  | kv :: rest, d => if kv.1 = d then some kv.2 else lookupCtr rest d

/-- Counter-dictionary write. -/
def setCtr : List (ℕ × ℕ) → ℕ → ℕ → List (ℕ × ℕ)
  | [], d, n => [(d, n)]
  | kv :: rest, d, n =>
    if kv.1 = d then (kv.1, n) :: rest else kv :: setCtr rest d n

/-! ## Interest accrual engine (`BankingSystem.calculate_interest`) -/

/-- The rate-lookup loop of `calculate_interest` (lines 208–211): fold over
the rule list in order, keeping the rate of the *last* rule in list order
whose date is ≤ the queried day. -/
def dailyRate (rules : List InterestRule) (d : ℕ) : ℚ :=
  rules.foldl (fun r rule => if rule.date ≤ d then rule.rate else r) 0

/-- One iteration of the daily loop of `calculate_interest`: the day
contributes `balance * rate / 100 / 365` when the end-of-day balance and the
applicable rate are both positive, and 0 otherwise. -/
def dayInterest (acc : Account) (rules : List InterestRule) (d : ℕ) : ℚ :=
  let b := acc.get_balance_at_date d
  if 0 < b then
    (let r := dailyRate rules d
     if 0 < r then b * r / 100 / 365 else 0)
  else 0

/-- The daily while-loop of `calculate_interest`, accumulated over the first
`n` days of month `(y, m)`. -/
def accrueDays (acc : Account) (rules : List InterestRule) (y m : ℕ) : ℕ → ℚ
  | 0 => 0
  | n + 1 => accrueDays acc rules y m n + dayInterest acc rules (mkDate y m (n + 1))

/-- `BankingSystem.calculate_interest`.  Returns `Decimal('0')` for an
unknown account before parsing anything; otherwise parses year and month
from the token (raising as Python `int`/`datetime` would on bad input),
iterates over every calendar day of the month, and rounds the accumulated
interest half-up to 2 decimal places.  After `datetime(year, month, 1)`
validates the year and month ranges, the December branch computes
`datetime(year + 1, 1, 1)`, which raises for year 9999 because
`datetime.MAXYEAR` is 9999 — so December 9999 is an error, not a result. -/
def calculate_interest (s : BankingSystem) (account : String) (year_month : String) :
    Except String ℚ :=
  match lookupAcc s.accounts account with
  | none => .ok 0
  | some acc =>
    match parseIntStr ⟨year_month.data.take 4⟩, parseIntStr ⟨year_month.data.drop 4⟩ with
    | some year, some month =>
      if 1 ≤ year ∧ year ≤ 9999 then
        if 1 ≤ month ∧ month ≤ 12 then
          if month = 12 ∧ year = 9999 then
            .error "ValueError: year 10000 is out of range"
          else
            .ok (quantize2 (accrueDays acc s.interest_rules year month (daysInMonth year month)))
        else .error "ValueError: month must be in 1..12"
      else .error "ValueError: year is out of range"
    | _, _ => .error "ValueError: invalid literal for int with base 10"

/-! ## Service requests -/

/-- The data content of a string returned by a request.  Success outputs
carry the data the Python code renders into its report (the exact tabular
layout is presentation, spec §6); `msg` carries a verbatim message string. -/
inductive ServiceOutput where
  | msg (text : String)
  | accountStatement (account_id : String) (txns : List Transaction)
  | rulesListing (rules : List InterestRule)
  | monthlyStatement (account_id : String) (rows : List (Transaction × ℚ))
      (interestRow : Option (ℕ × ℚ × ℚ))

instance : DecidableEq ServiceOutput := fun a b =>
  match a, b with
  | .msg x, .msg y =>
    if h : x = y then isTrue (by rw [h])
    else isFalse (by intro hh; cases hh; exact h rfl)
  | .accountStatement i1 t1, .accountStatement i2 t2 =>
    if h : i1 = i2 ∧ t1 = t2 then
      isTrue (by obtain ⟨rfl, rfl⟩ := h; rfl)
    else isFalse (by intro hh; cases hh; exact h ⟨rfl, rfl⟩)
  | .rulesListing r1, .rulesListing r2 =>
    if h : r1 = r2 then isTrue (by rw [h])
    else isFalse (by intro hh; cases hh; exact h rfl)
  | .monthlyStatement i1 w1 x1, .monthlyStatement i2 w2 x2 =>
    if h : i1 = i2 ∧ w1 = w2 ∧ x1 = x2 then
      isTrue (by obtain ⟨rfl, rfl, rfl⟩ := h; rfl)
    else isFalse (by intro hh; cases hh; exact h ⟨rfl, rfl, rfl⟩)
  | .msg _, .accountStatement _ _ => isFalse (by intro hh; cases hh)
  | .msg _, .rulesListing _ => isFalse (by intro hh; cases hh)
  | .msg _, .monthlyStatement _ _ _ => isFalse (by intro hh; cases hh)
  | .accountStatement _ _, .msg _ => isFalse (by intro hh; cases hh)
  | .accountStatement _ _, .rulesListing _ => isFalse (by intro hh; cases hh)
  | .accountStatement _ _, .monthlyStatement _ _ _ => isFalse (by intro hh; cases hh)
  | .rulesListing _, .msg _ => isFalse (by intro hh; cases hh)
  | .rulesListing _, .accountStatement _ _ => isFalse (by intro hh; cases hh)
  | .rulesListing _, .monthlyStatement _ _ _ => isFalse (by intro hh; cases hh)
  | .monthlyStatement _ _ _, .msg _ => isFalse (by intro hh; cases hh)
  | .monthlyStatement _ _ _, .accountStatement _ _ => isFalse (by intro hh; cases hh)
  | .monthlyStatement _ _ _, .rulesListing _ => isFalse (by intro hh; cases hh)

/-- `BankingSystem.get_account_statement` (data content). -/
def get_account_statement (accs : List (String × Account)) (account : String) :
    ServiceOutput :=
  match lookupAcc accs account with
  | none => .msg ("Account " ++ account ++ " not found")
  | some acc => .accountStatement account acc.transactions

/-- `BankingSystem.generate_transaction_id`: bump the per-date counter
(starting from 0) and render `f"{date}-{counter:02d}"` with the original
date token. -/
def generate_transaction_id (s : BankingSystem) (date_str : String) :
    String × BankingSystem :=
  let key := strToNat date_str
  let n := (lookupCtr s.transaction_counters key).getD 0 + 1
  (date_str ++ "-" ++ pad2 n,
   { s with transaction_counters := setCtr s.transaction_counters key n })

/-- Lines 130–134 of `input_transaction`: generate the id, build the
transaction, post it to the (now guaranteed to exist) account and return the
full account statement.  `ttype` is already uppercased. -/
def postTransaction (s : BankingSystem) (date_str account ttype : String) (amount : ℚ) :
    Except String (ServiceOutput × BankingSystem) :=
  let p := generate_transaction_id s date_str
  let txn : Transaction := ⟨strToNat date_str, account, ttype, amount, p.1⟩
  match lookupAcc p.2.accounts account with
  | none => .error "KeyError"
  | some acc =>
    match acc.add_transaction txn with
    | .error e => .error e
    | .ok acc1 =>
      let s3 : BankingSystem := { p.2 with accounts := setAcc p.2.accounts account acc1 }
      .ok (get_account_statement s3.accounts account, s3)

/-- `BankingSystem.input_transaction` on the whitespace-split fields of the
input line.  Validation order as in the source: arity, date, type, amount,
new-account withdrawal, insufficient balance; only then is the account
auto-created (deposit path), the id generated and the entry posted. -/
def input_transaction (s : BankingSystem) (parts : List String) :
    Except String (ServiceOutput × BankingSystem) :=
  match parts with
  | [date_str, account, ttype_str, amount_str] =>
    if validate_date date_str then
      if strUpper ttype_str = "D" ∨ strUpper ttype_str = "W" then
        match parseDecimal amount_str with
        | none => .ok (.msg "Invalid amount, Must be positive with max 2 decimal places", s)
        | some ve =>
          if 0 < ve.1 ∧ -2 ≤ ve.2 then
            match lookupAcc s.accounts account with
            | none =>
              if strUpper ttype_str = "W" then
                .ok (.msg "Cannot withdraw from new account with zero balance", s)
              else
                postTransaction
                  { s with accounts := setAcc s.accounts account (Account.new account) }
                  date_str account (strUpper ttype_str) ve.1
            | some acc =>
              if strUpper ttype_str = "W" ∧ acc.balance < ve.1 then
                .ok (.msg "Insufficient balance for withdrawal", s)
              else postTransaction s date_str account (strUpper ttype_str) ve.1
          else .ok (.msg "Invalid amount, Must be positive with max 2 decimal places", s)
      else .ok (.msg "Invalid transaction type. Use D for depositt or W for withdrawal", s)
    else .ok (.msg "Invalid format. Use YYYYMMDD", s)
  | _ => .ok (.msg "Invalid format. Expected: <Date> <Account> <Type> <Amount>", s)

/-- The date order used by `list.sort(key=lambda x: x.date)`. -/
def ruleDateLE (a b : InterestRule) : Prop := a.date ≤ b.date

instance : DecidableRel ruleDateLE := fun a b => Nat.decLe a.date b.date

instance : IsTotal InterestRule ruleDateLE := ⟨fun a b => Nat.le_total a.date b.date⟩

instance : IsTrans InterestRule ruleDateLE := ⟨fun _ _ _ => Nat.le_trans⟩

/-- Lines 153–158 of `define_interest_rule`: drop any rule with the same
effective date, append the new rule, and re-sort by effective date.  The
Python sort is stable, but the sorted list has pairwise-distinct dates, so
any date-sort produces the same list; insertion sort is used here. -/
def upsertRule (rules : List InterestRule) (r : InterestRule) : List InterestRule :=
  ((rules.filter fun x => decide (x.date ≠ r.date)) ++ [r]).insertionSort ruleDateLE

/-- `BankingSystem.define_interest_rule` on the whitespace-split fields. -/
def define_interest_rule (s : BankingSystem) (parts : List String) :
    ServiceOutput × BankingSystem :=
  match parts with
  | [date_str, rule_id, rate_str] =>
    if validate_date date_str then
      match parseDecimal rate_str with
      | none => (.msg "Invalid rate format", s)
      | some ve =>
        if ve.1 ≤ 0 ∨ 100 ≤ ve.1 then
          (.msg "Interest rate must be between 0 and 100", s)
        else
          let rules1 := upsertRule s.interest_rules ⟨strToNat date_str, rule_id, ve.1⟩
          (.rulesListing rules1, { s with interest_rules := rules1 })
    else (.msg "Invalid date format. Use YYYYMMDD", s)
  | _ => (.msg "Invalid format. Expected: <Date> <RuleId> <Rate in %>", s)

/-- One step of the running-balance loops of `print_statement`:
withdrawals subtract, everything else adds. -/
def applyTxn (b : ℚ) (t : Transaction) : ℚ :=
  if t.txn_type = "W" then b - t.amount else b + t.amount

/-- `BankingSystem.print_statement` on the whitespace-split fields.
Validation: arity, then 6-digit year-month, then account existence.  The
year/month integers are parsed without any range check; `calculate_interest`
raises (`.error`) on a month outside 1–12, and that exception escapes this
request (there is no `Invalid month` handling in the source, although its
unit tests expect one).  When the computed interest is positive a synthetic
Interest entry dated the last day of the month is permanently posted. -/
def print_statement (s : BankingSystem) (parts : List String) :
    Except String (ServiceOutput × BankingSystem) :=
  match parts with
  | [account, ym] =>
    if ym.length = 6 ∧ ym.data.all Char.isDigit then
      match lookupAcc s.accounts account with
      | none => .ok (.msg ("Account " ++ account ++ " not found"), s)
      | some acc =>
        let year := digitsToNat (ym.data.take 4)
        let month := digitsToNat (ym.data.drop 4)
        let firstNum := year * 10000 + month * 100 + 1
        let ymNum := strToNat ym
        let carried := acc.transactions.foldl
          (fun b t => if t.date < firstNum then applyTxn b t else b) 0
        let rows := acc.transactions.foldl
          (fun (p : List (Transaction × ℚ) × ℚ) t =>
            if t.date / 100 = ymNum then (p.1 ++ [(t, applyTxn p.2 t)], applyTxn p.2 t)
            else p)
          (([] : List (Transaction × ℚ)), carried)
        match calculate_interest s account ym with
        | .error e => .error e
        | .ok interest =>
          if 0 < interest then
            let lastDayNum := mkDate year month (daysInMonth year month)
            let itxn : Transaction := ⟨lastDayNum, account, "I", interest, ""⟩
            match acc.add_transaction itxn with
            | .error e => .error e
            | .ok acc1 =>
              .ok (.monthlyStatement account rows.1 (some (lastDayNum, interest, rows.2 + interest)),
                   { s with accounts := setAcc s.accounts account acc1 })
          else .ok (.monthlyStatement account rows.1 none, s)
    else .ok (.msg "Invalid year-month format. Use YYYYMM", s)
  | _ => .ok (.msg "Invalid format. Expected: <Account> <Year><Month>", s)

/-! ## Reachable states and concrete scenarios -/

/-- States of the service reachable from the empty initial state through any
sequence of transaction-intake, interest-rule and statement-generation
requests.  A request whose result is an escaping exception leaves the state
unchanged in the source (nothing is mutated before the raise point), so only
`.ok` results advance the state. -/
inductive Reachable : BankingSystem → Prop where
  | init : Reachable initState
  | txn (s : BankingSystem) (parts : List String) (o : ServiceOutput) (s1 : BankingSystem) :
      Reachable s → input_transaction s parts = .ok (o, s1) → Reachable s1
  | rule (s : BankingSystem) (parts : List String) (o : ServiceOutput) (s1 : BankingSystem) :
      Reachable s → define_interest_rule s parts = (o, s1) → Reachable s1
  | stmt (s : BankingSystem) (parts : List String) (o : ServiceOutput) (s1 : BankingSystem) :
      Reachable s → print_statement s parts = .ok (o, s1) → Reachable s1

/-- Rule timelines obtainable from the empty timeline through the upsert
operation of `define_interest_rule`. -/
inductive RulesReach : List InterestRule → Prop where
  | nil : RulesReach []
  | upsert (rules : List InterestRule) (r : InterestRule) :
      RulesReach rules → RulesReach (upsertRule rules r)

/-- Run one transaction-intake request for its state effect. -/
def stepT (s : BankingSystem) (parts : List String) : BankingSystem :=
  match input_transaction s parts with
  | .ok op => op.2
  | .error _ => s

/-- Run one interest-rule request for its state effect. -/
def stepR (s : BankingSystem) (parts : List String) : BankingSystem :=
  (define_interest_rule s parts).2

/-- The scenario of spec §8 / `test_calculate_interest`: deposit 150.00 on
2023-06-01 into AC001, withdraw 20.00 and 100.00 on 2023-06-26, rules 1.90%
from 2023-05-20 and 2.20% from 2023-06-15. -/
def scenarioState : BankingSystem :=
  stepR (stepR (stepT (stepT (stepT initState
    ["20230601", "AC001", "D", "150.00"])
    ["20230626", "AC001", "W", "20.00"])
    ["20230626", "AC001", "W", "100.00"])
    ["20230520", "RULE02", "1.90"])
    ["20230615", "RULE03", "2.20"]

/-- A state with a single account AC001 holding one 100.00 deposit
(the setup of `test_print_statement_invalid_month`). -/
def oneAccountState : BankingSystem :=
  stepT initState ["20230601", "AC001", "D", "100.00"]

/-! ## Specification-side definitions

These follow the wording of `spec.md` (they are *not* transcribed from the
source) and are compared against the embedded code. -/

/-- The latest applicable rule per the spec's words: among the rules whose
effective date is ≤ the queried date, the one with the maximal effective
date (`none` when no rule applies).  Effective dates are unique in every
timeline produced by upsert, so there are no ties. -/
def latestRuleOn (rules : List InterestRule) (d : ℕ) : Option InterestRule :=
  (rules.filter fun r => decide (r.date ≤ d)).foldl
    (fun best r =>
      match best with
      | none => some r
      | some b => if b.date < r.date then some r else some b)
    none

/-- Spec §4.2 `rate_effective_on(date)`: the rate of the latest rule whose
effective date is ≤ the queried date; zero if no such rule exists. -/
def specRateEffectiveOn (rules : List InterestRule) (d : ℕ) : ℚ :=
  match latestRuleOn rules d with
  | none => 0
  | some r => r.rate

/-- Spec §4.3, one day of accrual: if the end-of-day balance is positive and
the effective annual rate is positive, `balance × rate / 100 / 365`,
otherwise nothing. -/
def specDayInterest (acc : Account) (rules : List InterestRule) (d : ℕ) : ℚ :=
  let b := acc.get_balance_at_date d
  let r := specRateEffectiveOn rules d
  if 0 < b ∧ 0 < r then b * r / 100 / 365 else 0

/-- Sum of the amounts of the entries of one kind (`"D"`, `"W"` or `"I"`). -/
def sumOfType (acc : Account) (ty : String) : ℚ :=
  ((acc.transactions.filter fun t => decide (t.txn_type = ty)).map
    (fun t => t.amount)).sum

/-- Number of id-bearing (i.e. intake-posted, not interest) entries dated
`date` across all accounts of the system. -/
def idTxnCount (accs : List (String × Account)) (date : ℕ) : ℕ :=
  (accs.map fun kv =>
    (kv.2.transactions.filter fun t =>
      decide (t.date = date) && decide (t.txn_id ≠ "")).length).sum

/-! ## Dictionary lemmas -/

theorem lookupAcc_setAcc_self (l : List (String × Account)) (k : String) (v : Account) :
    lookupAcc (setAcc l k v) k = some v := by
  induction l with
  | nil => simp [setAcc, lookupAcc]
  | cons kv rest ih =>
    by_cases h : kv.1 = k
    · simp [setAcc, h, lookupAcc]
    · simp [setAcc, h, lookupAcc, ih]

theorem lookupAcc_setAcc_ne (l : List (String × Account)) (k : String) (v : Account)
    (k2 : String) (h : k2 ≠ k) : lookupAcc (setAcc l k v) k2 = lookupAcc l k2 := by
  have hne : ¬ k = k2 := fun hh => h hh.symm
  induction l with
  | nil =>
    simp only [setAcc, lookupAcc]
    rw [if_neg hne]
  | cons kv rest ih =>
    by_cases hk : kv.1 = k
    · simp only [setAcc, if_pos hk, lookupAcc, hk]
      rw [if_neg hne, if_neg hne]
    · simp only [setAcc, if_neg hk, lookupAcc]
      by_cases hk2 : kv.1 = k2
      · rw [if_pos hk2, if_pos hk2]
      · rw [if_neg hk2, if_neg hk2]
        exact ih

theorem lookupCtr_setCtr_self (l : List (ℕ × ℕ)) (k v : ℕ) :
    lookupCtr (setCtr l k v) k = some v := by
  induction l with
  | nil => simp [setCtr, lookupCtr]
  | cons kv rest ih =>
    by_cases h : kv.1 = k
    · simp [setCtr, h, lookupCtr]
    · simp [setCtr, h, lookupCtr, ih]

theorem lookupCtr_setCtr_ne (l : List (ℕ × ℕ)) (k v k2 : ℕ) (h : k2 ≠ k) :
    lookupCtr (setCtr l k v) k2 = lookupCtr l k2 := by
  have hne : ¬ k = k2 := fun hh => h hh.symm
  induction l with
  | nil =>
    simp only [setCtr, lookupCtr]
    rw [if_neg hne]
  | cons kv rest ih =>
    by_cases hk : kv.1 = k
    · simp only [setCtr, if_pos hk, lookupCtr, hk]
      rw [if_neg hne, if_neg hne]
    · simp only [setCtr, if_neg hk, lookupCtr]
      by_cases hk2 : kv.1 = k2
      · rw [if_pos hk2, if_pos hk2]
      · rw [if_neg hk2, if_neg hk2]
        exact ih

theorem postTransaction_ok (s : BankingSystem) (d a t : String) (v : ℚ)
    (o : ServiceOutput) (s1 : BankingSystem)
    (h : postTransaction s d a t v = .ok (o, s1)) :
    ∃ acc acc1,
      lookupAcc s.accounts a = some acc ∧
      acc.add_transaction
        ⟨strToNat d, a, t, v,
          d ++ "-" ++ pad2 ((lookupCtr s.transaction_counters (strToNat d)).getD 0 + 1)⟩
        = .ok acc1 ∧
      o = .accountStatement a acc1.transactions ∧
      s1 = ⟨setAcc s.accounts a acc1, s.interest_rules,
            setCtr s.transaction_counters (strToNat d)
              ((lookupCtr s.transaction_counters (strToNat d)).getD 0 + 1)⟩ := by
  unfold postTransaction generate_transaction_id at h
  simp only at h
  cases hl : lookupAcc s.accounts a with
  | none => rw [hl] at h; cases h
  | some acc =>
    rw [hl] at h
    simp only at h
    cases hadd : acc.add_transaction
        ⟨strToNat d, a, t, v,
          d ++ "-" ++ pad2 ((lookupCtr s.transaction_counters (strToNat d)).getD 0 + 1)⟩ with
    | error e => rw [hadd] at h; cases h
    | ok acc1 =>
      rw [hadd] at h
      simp only at h
      refine ⟨acc, acc1, rfl, hadd, ?_, ?_⟩
      · have h2 := congrArg Prod.fst (Except.ok.inj h)
        simp only [get_account_statement, lookupAcc_setAcc_self] at h2
        exact h2.symm
      · have h2 := congrArg Prod.snd (Except.ok.inj h)
        exact h2.symm

/-- C9: a transaction-intake request that fails validation returns a message
and leaves the whole service state (accounts, rules, id counters) unchanged.
Every validation-failure path of `input_transaction` returns `.msg`, and the
successful path returns an account statement, so `.msg` outputs characterise
exactly the rejected requests. -/
theorem failed_txn_request_leaves_state (s : BankingSystem) (parts : List String)
    (m : String) (s1 : BankingSystem)
    (h : input_transaction s parts = .ok (.msg m, s1)) : s1 = s := by
  unfold input_transaction at h
  repeat' split at h
  all_goals
    first
    | exact (congrArg Prod.snd (Except.ok.inj h)).symm
    | (obtain ⟨acc, acc1, h1, h2, ho, h4⟩ := postTransaction_ok _ _ _ _ _ _ _ h; cases ho)

/-- C10: interest calculation for an unknown account returns exactly 0, for
every year-month argument, before parsing anything. -/
theorem calc_interest_unknown_account (s : BankingSystem) (account ym : String)
    (h : lookupAcc s.accounts account = none) :
    calculate_interest s account ym = .ok 0 := by
  unfold calculate_interest
  rw [h]

/-- C3: a withdrawal whose amount exceeds the stored balance of an existing
account is rejected with the insufficient-balance message and the state is
returned unchanged (in particular the ledger length and balance are
untouched and no id counter is consumed). -/
theorem insufficient_withdrawal_rejected (s : BankingSystem)
    (date_str account ttype_str amt_str : String)
    (acc : Account) (v : ℚ) (e : ℤ)
    (hd : validate_date date_str = true)
    (ht : strUpper ttype_str = "W")
    (hp : parseDecimal amt_str = some (v, e)) (hv : 0 < v) (he : -2 ≤ e)
    (hacc : lookupAcc s.accounts account = some acc)
    (hover : acc.balance < v) :
    input_transaction s [date_str, account, ttype_str, amt_str]
      = .ok (.msg "Insufficient balance for withdrawal", s) := by
  simp [input_transaction, hd, ht, hp, hacc, hv, he, hover]

/-- C4: evaluating the code at the failing input of
`test_print_statement_invalid_month`.  With account AC001 present, a
statement request for month `00` or `13` does not produce the
`Invalid month` result the spec and the unit tests require: the embedded
`datetime` check raises, and the exception escapes the request boundary. -/
theorem invalid_month_raises_valueerror :
    print_statement oneAccountState ["AC001", "202300"]
      = .error "ValueError: month must be in 1..12" ∧
    print_statement oneAccountState ["AC001", "202313"]
      = .error "ValueError: month must be in 1..12" :=
  ⟨by with_unfolding_all decide, by with_unfolding_all decide⟩

/-- C8: the worked scenario of spec §8.  Interest for AC001 in 2023-06 is
exactly 0.22, and the unrounded accumulated amount is
14 days at 1.90% on 150 plus 11 days at 2.20% on 150 plus 5 days at 2.20%
on 30, each day contributing balance × rate / 100 / 365. -/
theorem scenario_interest_exact :
    calculate_interest scenarioState "AC001" "202306" = .ok (0.22 : ℚ) ∧
    ∃ acc, lookupAcc scenarioState.accounts "AC001" = some acc ∧
      accrueDays acc scenarioState.interest_rules 2023 6 30
        = (14 * (150 * (19 / 10)) + 11 * (150 * (11 / 5)) + 5 * (30 * (11 / 5))) / 100 / 365 :=
  ⟨by with_unfolding_all decide,
   ⟨"AC001",
     [⟨20230601, "AC001", "D", 150, "20230601-01"⟩,
      ⟨20230626, "AC001", "W", 20, "20230626-01"⟩,
      ⟨20230626, "AC001", "W", 100, "20230626-02"⟩], 30⟩,
   by with_unfolding_all decide,
   by with_unfolding_all decide⟩

/-- Witness for C3 at a concrete input: withdrawing 999.00 from an account
holding 100.00 is rejected and the state is returned unchanged. -/
theorem insufficient_withdrawal_rejected_witness :
    input_transaction oneAccountState ["20230601", "AC001", "W", "999.00"]
      = .ok (.msg "Insufficient balance for withdrawal", oneAccountState) :=
  insufficient_withdrawal_rejected oneAccountState "20230601" "AC001" "W" "999.00"
    ⟨"AC001", [⟨20230601, "AC001", "D", 100, "20230601-01"⟩], 100⟩ 999 (-2)
    (by with_unfolding_all decide) (by with_unfolding_all decide)
    (by with_unfolding_all decide) (by with_unfolding_all decide)
    (by with_unfolding_all decide) (by with_unfolding_all decide)
    (by with_unfolding_all decide)

/-- Witness for C9 at a concrete input: a rejected over-withdrawal leaves the
state it started from. -/
theorem failed_txn_request_leaves_state_witness :
    (input_transaction oneAccountState ["20230601", "AC001", "W", "5000.00"]
      = .ok (.msg "Insufficient balance for withdrawal", oneAccountState)) ∧
    oneAccountState = oneAccountState :=
  ⟨by with_unfolding_all decide,
   failed_txn_request_leaves_state oneAccountState ["20230601", "AC001", "W", "5000.00"]
     "Insufficient balance for withdrawal" oneAccountState (by with_unfolding_all decide)⟩

/-- Witness for C10 at a concrete input. -/
theorem calc_interest_unknown_account_witness :
    calculate_interest initState "AC999" "not-a-month" = .ok 0 :=
  calc_interest_unknown_account initState "AC999" "not-a-month" rfl

/-! ## The rate-lookup loop versus the spec's latest-rule lookup -/

theorem getLast?_cons_or {α : Type} (x : α) (l : List α) :
    (x :: l).getLast? = l.getLast?.or (some x) := by
  cases l with
  | nil => rfl
  | cons y ys =>
    rw [List.getLast?_cons_cons]
    cases hz : (y :: ys).getLast? with
    | some z => rfl
    | none => exact absurd (List.getLast?_eq_none_iff.mp hz) (List.cons_ne_nil y ys)

/-- The fold of lines 208–211 keeps the last rule (in list order) whose date
is ≤ `d`; expressed through an option accumulator. -/
theorem lastRule_foldl_or (d : ℕ) (rules : List InterestRule) :
    ∀ o : Option InterestRule,
      rules.foldl (fun acc r => if r.date ≤ d then some r else acc) o
        = ((rules.filter fun r => decide (r.date ≤ d)).getLast?).or o := by
  induction rules with
  | nil => intro o; rfl
  | cons x xs ih =>
    intro o
    by_cases hx : x.date ≤ d
    · rw [List.foldl_cons, if_pos hx, ih (some x), List.filter_cons_of_pos (by simpa using hx),
        getLast?_cons_or, Option.or_assoc]
      rfl
    · rw [List.foldl_cons, if_neg hx, ih o, List.filter_cons_of_neg (by simpa using hx)]

/-- The rate fold returns the rate of the last listed rule with date ≤ `d`
(and 0 when there is none). -/
theorem dailyRate_eq_getLast (rules : List InterestRule) (d : ℕ) :
    dailyRate rules d
      = (((rules.filter fun r => decide (r.date ≤ d)).getLast?).map
          (fun r => r.rate)).getD 0 := by
  have key : ∀ (l : List InterestRule) (o : Option InterestRule) (a : ℚ),
      l.foldl (fun r rule => if rule.date ≤ d then rule.rate else r)
          ((o.map fun r => r.rate).getD a)
        = (((l.foldl (fun acc r => if r.date ≤ d then some r else acc) o).map
            (fun r => r.rate)).getD a) := by
    intro l
    induction l with
    | nil => intro o a; rfl
    | cons x xs ih =>
      intro o a
      by_cases hx : x.date ≤ d
      · rw [List.foldl_cons, if_pos hx]
        have hx2 : List.foldl (fun r rule => if rule.date ≤ d then rule.rate else r) x.rate xs
            = ((List.foldl (fun acc r => if r.date ≤ d then some r else acc) (some x) xs).map
                (fun r => r.rate)).getD a := ih (some x) a
        rw [hx2, List.foldl_cons, if_pos hx]
      · rw [List.foldl_cons, if_neg hx, ih o a, List.foldl_cons, if_neg hx]
  have h0 : List.foldl (fun r rule => if rule.date ≤ d then rule.rate else r) 0 rules
      = ((List.foldl (fun acc r => if r.date ≤ d then some r else acc) none rules).map
          (fun r => r.rate)).getD 0 := key rules none 0
  rw [dailyRate, h0, lastRule_foldl_or d rules none, Option.or_none]

/-- On a list whose dates are strictly increasing, the max-date fold of
`latestRuleOn` also returns the last applicable rule. -/
theorem latestRuleOn_eq_getLast (rules : List InterestRule) (d : ℕ)
    (h : rules.Pairwise fun a b => a.date < b.date) :
    latestRuleOn rules d = (rules.filter fun r => decide (r.date ≤ d)).getLast? := by
  have hf : (rules.filter fun r => decide (r.date ≤ d)).Pairwise
      (fun a b => a.date < b.date) := h.sublist (List.filter_sublist rules)
  have key : ∀ (l : List InterestRule), (l.Pairwise fun a b => a.date < b.date) →
      ∀ o : Option InterestRule, (∀ b ∈ o, ∀ r ∈ l, b.date < r.date) →
      l.foldl (fun best r =>
        match best with
        | none => some r
        | some b => if b.date < r.date then some r else some b) o
        = l.getLast?.or o := by
    intro l
    induction l with
    | nil => intro _ o _; rfl
    | cons x xs ih =>
      intro hp o ho
      have hstep : List.foldl (fun best r =>
          match best with
          | none => some r
          | some b => if b.date < r.date then some r else some b) o (x :: xs)
          = List.foldl (fun best r =>
          match best with
          | none => some r
          | some b => if b.date < r.date then some r else some b) (some x) xs := by
        rw [List.foldl_cons]
        congr 1
        cases o with
        | none => rfl
        | some b => exact if_pos (ho b rfl x (List.mem_cons_self x xs))
      rw [hstep, ih (List.Pairwise.of_cons hp) (some x)
        (by intro b hb r hr; cases hb; exact (List.pairwise_cons.mp hp).1 r hr),
        getLast?_cons_or, Option.or_assoc]
      rfl
  rw [latestRuleOn, key _ hf none (by intro b hb; cases hb), Option.or_none]

/-- For every strictly date-sorted timeline, the code's rate fold computes
exactly the spec's `rate_effective_on`. -/
theorem dailyRate_eq_spec (rules : List InterestRule) (d : ℕ)
    (h : rules.Pairwise fun a b => a.date < b.date) :
    dailyRate rules d = specRateEffectiveOn rules d := by
  rw [dailyRate_eq_getLast, specRateEffectiveOn, latestRuleOn_eq_getLast rules d h]
  cases (rules.filter fun r => decide (r.date ≤ d)).getLast? with
  | none => rfl
  | some r => rfl

/-- Upsert keeps effective dates strictly increasing: the filter drops the
replaced date, the new rule's date is fresh in the list, and the sort
restores order; sortedness plus distinct dates gives strict order. -/
theorem upsertRule_pairwise (rules : List InterestRule) (r : InterestRule)
    (h : rules.Pairwise fun a b => a.date < b.date) :
    (upsertRule rules r).Pairwise fun a b => a.date < b.date := by
  have hsorted : (upsertRule rules r).Sorted ruleDateLE :=
    List.sorted_insertionSort ruleDateLE _
  have hperm : List.Perm (upsertRule rules r)
      ((rules.filter fun x => decide (x.date ≠ r.date)) ++ [r]) :=
    List.perm_insertionSort ruleDateLE _
  have hfil : (rules.filter fun x => decide (x.date ≠ r.date)).Pairwise
      (fun a b => a.date < b.date) := h.sublist (List.filter_sublist _)
  have hnodup_base :
      (((rules.filter fun x => decide (x.date ≠ r.date)) ++ [r]).map
        (fun x => x.date)).Nodup := by
    rw [List.map_append]
    apply List.Nodup.append
    · exact List.pairwise_map.mpr (hfil.imp fun hab => Nat.ne_of_lt hab)
    · exact List.nodup_singleton _
    · intro a ha hb
      simp only [List.map_singleton, List.mem_singleton] at hb
      obtain ⟨x, hx, rfl⟩ := List.mem_map.mp ha
      have := List.of_mem_filter hx
      simp only [decide_eq_true_eq] at this
      exact this hb
  have hnodup : ((upsertRule rules r).map (fun x => x.date)).Nodup :=
    ((hperm.map _).nodup_iff).mpr hnodup_base
  have hne : (upsertRule rules r).Pairwise (fun a b => a.date ≠ b.date) :=
    List.pairwise_map.mp hnodup
  exact (hsorted.and hne).imp fun hab => lt_of_le_of_ne hab.1 hab.2

/-- Every timeline reachable through upserts has strictly increasing
effective dates. -/
theorem rulesReach_pairwise (rules : List InterestRule) (h : RulesReach rules) :
    rules.Pairwise fun a b => a.date < b.date := by
  induction h with
  | nil => exact List.Pairwise.nil
  | upsert rs r _ ih => exact upsertRule_pairwise rs r ih

/-- C6: on every rule timeline obtainable through the upsert operation, the
rate used by the accrual loop on any query date is the rate of the latest
rule whose effective date is ≤ that date; when no rule applies the effective
rate is zero and the day contributes no interest. -/
theorem rate_lookup_follows_spec (rules : List InterestRule) (h : RulesReach rules) (d : ℕ) :
    dailyRate rules d = specRateEffectiveOn rules d ∧
    ((∀ r ∈ rules, ¬ r.date ≤ d) →
      dailyRate rules d = 0 ∧ ∀ acc : Account, dayInterest acc rules d = 0) := by
  constructor
  · exact dailyRate_eq_spec rules d (rulesReach_pairwise rules h)
  · intro hnone
    have hfil : (rules.filter fun r => decide (r.date ≤ d)) = [] := by
      rw [List.filter_eq_nil_iff]
      intro r hr
      simpa using hnone r hr
    have h0 : dailyRate rules d = 0 := by
      rw [dailyRate_eq_getLast, hfil]
      rfl
    refine ⟨h0, fun acc => ?_⟩
    simp only [dayInterest, h0]
    split
    · exact if_neg (lt_irrefl 0)
    · rfl

/-- Witness for C6 on the concrete two-rule timeline of the spec's §8
scenario, queried on 2023-06-01 (between the two effective dates). -/
theorem rate_lookup_follows_spec_witness :
    dailyRate [⟨20230520, "RULE02", 19 / 10⟩, ⟨20230615, "RULE03", 11 / 5⟩] 20230601
      = specRateEffectiveOn
          [⟨20230520, "RULE02", 19 / 10⟩, ⟨20230615, "RULE03", 11 / 5⟩] 20230601 ∧
    ((∀ r ∈ [(⟨20230520, "RULE02", 19 / 10⟩ : InterestRule),
              ⟨20230615, "RULE03", 11 / 5⟩], ¬ r.date ≤ 20230601) →
      dailyRate [⟨20230520, "RULE02", 19 / 10⟩, ⟨20230615, "RULE03", 11 / 5⟩] 20230601 = 0 ∧
      ∀ acc : Account,
        dayInterest acc
          [⟨20230520, "RULE02", 19 / 10⟩, ⟨20230615, "RULE03", 11 / 5⟩] 20230601 = 0) := by
  have e1 : upsertRule [] ⟨20230520, "RULE02", 19 / 10⟩
      = [⟨20230520, "RULE02", 19 / 10⟩] := by with_unfolding_all decide
  have h1 : RulesReach [⟨20230520, "RULE02", 19 / 10⟩] :=
    e1 ▸ RulesReach.upsert [] ⟨20230520, "RULE02", 19 / 10⟩ RulesReach.nil
  have e2 : upsertRule [⟨20230520, "RULE02", 19 / 10⟩] ⟨20230615, "RULE03", 11 / 5⟩
      = [⟨20230520, "RULE02", 19 / 10⟩, ⟨20230615, "RULE03", 11 / 5⟩] := by
    with_unfolding_all decide
  have h2 : RulesReach [⟨20230520, "RULE02", 19 / 10⟩, ⟨20230615, "RULE03", 11 / 5⟩] :=
    e2 ▸ RulesReach.upsert [⟨20230520, "RULE02", 19 / 10⟩] ⟨20230615, "RULE03", 11 / 5⟩ h1
  exact rate_lookup_follows_spec _ h2 20230601

/-! ## Classification of request outcomes -/

theorem setAcc_setAcc (l : List (String × Account)) (k : String) (v w : Account) :
    setAcc (setAcc l k v) k w = setAcc l k w := by
  induction l with
  | nil => simp [setAcc]
  | cons kv rest ih =>
    by_cases h : kv.1 = k
    · simp [setAcc, h]
    · simp [setAcc, h, ih]

theorem setAcc_absent (l : List (String × Account)) (k : String) (v : Account)
    (h : lookupAcc l k = none) : setAcc l k v = l ++ [(k, v)] := by
  induction l with
  | nil => rfl
  | cons kv rest ih =>
    unfold lookupAcc at h
    by_cases hk : kv.1 = k
    · rw [if_pos hk] at h
      cases h
    · rw [if_neg hk] at h
      simp [setAcc, hk, ih h]

/-- Every interest-rule request leaves accounts and id counters untouched,
and either leaves the timeline unchanged (validation failure) or upserts one
rule into it. -/
theorem define_interest_rule_cases (s : BankingSystem) (parts : List String)
    (o : ServiceOutput) (s1 : BankingSystem)
    (h : define_interest_rule s parts = (o, s1)) :
    s1.accounts = s.accounts ∧ s1.transaction_counters = s.transaction_counters ∧
    (s1.interest_rules = s.interest_rules ∨
      ∃ r, s1.interest_rules = upsertRule s.interest_rules r) := by
  unfold define_interest_rule at h
  repeat' split at h
  all_goals
    first
    | (cases h; exact ⟨rfl, rfl, Or.inl rfl⟩)
    | (cases h; exact ⟨rfl, rfl, Or.inr ⟨_, rfl⟩⟩)

/-- A statement request either leaves the state unchanged (validation
failure, or interest rounding to ≤ 0) or permanently posts exactly one
Interest entry, with positive amount, dated the last day of the requested
month, to the requested account; rules and id counters are never touched. -/
theorem print_statement_ok_cases (s : BankingSystem) (parts : List String)
    (o : ServiceOutput) (s1 : BankingSystem)
    (h : print_statement s parts = .ok (o, s1)) :
    s1 = s ∨
    ∃ account ym acc i acc1,
      parts = [account, ym] ∧
      lookupAcc s.accounts account = some acc ∧
      calculate_interest s account ym = .ok i ∧ 0 < i ∧
      acc.add_transaction
        ⟨mkDate (digitsToNat (ym.data.take 4)) (digitsToNat (ym.data.drop 4))
            (daysInMonth (digitsToNat (ym.data.take 4)) (digitsToNat (ym.data.drop 4))),
          account, "I", i, ""⟩ = .ok acc1 ∧
      s1 = ⟨setAcc s.accounts account acc1, s.interest_rules, s.transaction_counters⟩ := by
  rcases parts with _ | ⟨account, _ | ⟨ym, _ | ⟨z, zs⟩⟩⟩
  · unfold print_statement at h
    cases h
    exact Or.inl rfl
  · unfold print_statement at h
    cases h
    exact Or.inl rfl
  · unfold print_statement at h
    simp only at h
    by_cases hfmt : ym.length = 6 ∧ ym.data.all Char.isDigit
    · rw [if_pos hfmt] at h
      cases hl : lookupAcc s.accounts account with
      | none =>
        rw [hl] at h
        cases h
        exact Or.inl rfl
      | some acc =>
        rw [hl] at h
        simp only at h
        cases hc : calculate_interest s account ym with
        | error e =>
          rw [hc] at h
          simp only at h
          cases h
        | ok i =>
          rw [hc] at h
          simp only at h
          by_cases hi : 0 < i
          · rw [if_pos hi] at h
            cases hadd : acc.add_transaction
                ⟨mkDate (digitsToNat (ym.data.take 4)) (digitsToNat (ym.data.drop 4))
                    (daysInMonth (digitsToNat (ym.data.take 4)) (digitsToNat (ym.data.drop 4))),
                  account, "I", i, ""⟩ with
            | error e =>
              rw [hadd] at h
              simp only at h
              cases h
            | ok acc1 =>
              rw [hadd] at h
              simp only at h
              cases h
              exact Or.inr ⟨account, ym, acc, i, acc1, rfl, hl, hc, hi, hadd, rfl⟩
          · rw [if_neg hi] at h
            cases h
            exact Or.inl rfl
    · rw [if_neg hfmt] at h
      cases h
      exact Or.inl rfl
  · unfold print_statement at h
    cases h
    exact Or.inl rfl

/-- Full classification of transaction-intake outcomes: a request either
fails validation, returning a message and the unchanged state, or posts
exactly one entry: the account is the existing one (with the withdrawal
guard passed) or a freshly created one (deposit only), the entry carries the
uppercased type, the parsed amount and the id built from the date token and
the bumped per-date counter, and the state records the posted account and
the bumped counter with the rule timeline untouched. -/
theorem input_transaction_ok_cases (s : BankingSystem) (parts : List String)
    (o : ServiceOutput) (s1 : BankingSystem)
    (h : input_transaction s parts = .ok (o, s1)) :
    ((∃ m, o = .msg m) ∧ s1 = s) ∨
    (∃ date_str account ttype_str amount_str v e acc0 acc1,
      parts = [date_str, account, ttype_str, amount_str] ∧
      validate_date date_str = true ∧
      parseDecimal amount_str = some (v, e) ∧ 0 < v ∧ -2 ≤ e ∧
      (strUpper ttype_str = "D" ∨ strUpper ttype_str = "W") ∧
      ((lookupAcc s.accounts account = some acc0 ∧
          ¬(strUpper ttype_str = "W" ∧ acc0.balance < v)) ∨
        (lookupAcc s.accounts account = none ∧ strUpper ttype_str = "D" ∧
          acc0 = Account.new account)) ∧
      acc0.add_transaction
        ⟨strToNat date_str, account, strUpper ttype_str, v,
          date_str ++ "-" ++
            pad2 ((lookupCtr s.transaction_counters (strToNat date_str)).getD 0 + 1)⟩
        = .ok acc1 ∧
      o = .accountStatement account acc1.transactions ∧
      s1 = ⟨setAcc s.accounts account acc1, s.interest_rules,
            setCtr s.transaction_counters (strToNat date_str)
              ((lookupCtr s.transaction_counters (strToNat date_str)).getD 0 + 1)⟩) := by
  rcases parts with _ | ⟨d, _ | ⟨a, _ | ⟨t, _ | ⟨amt, _ | ⟨x, xs⟩⟩⟩⟩⟩
  · unfold input_transaction at h; cases h; exact Or.inl ⟨⟨_, rfl⟩, rfl⟩
  · unfold input_transaction at h; cases h; exact Or.inl ⟨⟨_, rfl⟩, rfl⟩
  · unfold input_transaction at h; cases h; exact Or.inl ⟨⟨_, rfl⟩, rfl⟩
  · unfold input_transaction at h; cases h; exact Or.inl ⟨⟨_, rfl⟩, rfl⟩
  · unfold input_transaction at h
    simp only at h
    by_cases hd : validate_date d = true
    · rw [if_pos hd] at h
      by_cases ht : strUpper t = "D" ∨ strUpper t = "W"
      · rw [if_pos ht] at h
        cases hp : parseDecimal amt with
        | none =>
          rw [hp] at h
          simp only at h
          cases h
          exact Or.inl ⟨⟨_, rfl⟩, rfl⟩
        | some ve =>
          rw [hp] at h
          simp only at h
          by_cases hve : 0 < ve.1 ∧ -2 ≤ ve.2
          · rw [if_pos hve] at h
            cases hl : lookupAcc s.accounts a with
            | none =>
              rw [hl] at h
              simp only at h
              by_cases hw : strUpper t = "W"
              · rw [if_pos hw] at h
                cases h
                exact Or.inl ⟨⟨_, rfl⟩, rfl⟩
              · rw [if_neg hw] at h
                have hD : strUpper t = "D" := ht.resolve_right hw
                obtain ⟨acc, acc1, hlk, hadd, ho, hs1⟩ :=
                  postTransaction_ok _ _ _ _ _ _ _ h
                have hacc : acc = Account.new a := by
                  have := hlk.symm.trans (lookupAcc_setAcc_self s.accounts a (Account.new a))
                  exact Option.some.inj this
                subst hacc
                refine Or.inr ⟨d, a, t, amt, ve.1, ve.2, Account.new a, acc1, rfl, hd,
                  hp, hve.1, hve.2, ht, Or.inr ⟨hl, hD, rfl⟩, hadd, ho, ?_⟩
                rw [hs1]
                simp only [setAcc_setAcc]
            | some acc0 =>
              rw [hl] at h
              simp only at h
              by_cases hw : strUpper t = "W" ∧ acc0.balance < ve.1
              · rw [if_pos hw] at h
                cases h
                exact Or.inl ⟨⟨_, rfl⟩, rfl⟩
              · rw [if_neg hw] at h
                obtain ⟨acc, acc1, hlk, hadd, ho, hs1⟩ :=
                  postTransaction_ok _ _ _ _ _ _ _ h
                have hacc : acc = acc0 := Option.some.inj (hlk.symm.trans hl)
                subst hacc
                exact Or.inr ⟨d, a, t, amt, ve.1, ve.2, acc, acc1, rfl, hd,
                  hp, hve.1, hve.2, ht, Or.inl ⟨hl, hw⟩, hadd, ho, hs1⟩
          · rw [if_neg hve] at h
            cases h
            exact Or.inl ⟨⟨_, rfl⟩, rfl⟩
      · rw [if_neg ht] at h
        cases h
        exact Or.inl ⟨⟨_, rfl⟩, rfl⟩
    · rw [if_neg hd] at h
      cases h
      exact Or.inl ⟨⟨_, rfl⟩, rfl⟩
  · unfold input_transaction at h; cases h; exact Or.inl ⟨⟨_, rfl⟩, rfl⟩

/-! ## Reachability facts -/

theorem reachable_stepT (s : BankingSystem) (p : List String) (h : Reachable s) :
    Reachable (stepT s p) := by
  unfold stepT
  cases hh : input_transaction s p with
  | ok op => exact Reachable.txn s p op.1 op.2 h (by rw [hh])
  | error e => exact h

theorem reachable_stepR (s : BankingSystem) (p : List String) (h : Reachable s) :
    Reachable (stepR s p) :=
  Reachable.rule s p (define_interest_rule s p).1 (define_interest_rule s p).2 h rfl

theorem oneAccount_reachable : Reachable oneAccountState :=
  reachable_stepT _ _ Reachable.init

theorem scenario_reachable : Reachable scenarioState :=
  reachable_stepR _ _ (reachable_stepR _ _ (reachable_stepT _ _
    (reachable_stepT _ _ (reachable_stepT _ _ Reachable.init))))

/-- The rule timeline of every reachable service state is obtainable through
upserts: intake and statement requests never touch it, and rule requests
change it exactly by `upsertRule`. -/
theorem reachable_rulesReach (s : BankingSystem) (h : Reachable s) :
    RulesReach s.interest_rules := by
  induction h with
  | init => exact RulesReach.nil
  | txn s parts o s1 hs hstep ih =>
    rcases input_transaction_ok_cases _ _ _ _ hstep with ⟨_, rfl⟩ |
      ⟨d, a, t, amt, v, e, acc0, acc1, _, _, _, _, _, _, _, _, _, hs1⟩
    · exact ih
    · rw [hs1]
      exact ih
  | rule s parts o s1 hs hstep ih =>
    obtain ⟨_, _, hr⟩ := define_interest_rule_cases _ _ _ _ hstep
    rcases hr with hr | ⟨r, hr⟩
    · rw [hr]
      exact ih
    · rw [hr]
      exact RulesReach.upsert _ r ih
  | stmt s parts o s1 hs hstep ih =>
    rcases print_statement_ok_cases _ _ _ _ hstep with rfl |
      ⟨a, ym, acc, i, acc1, _, _, _, _, _, hs1⟩
    · exact ih
    · rw [hs1]
      exact ih

/-! ## The accrual engine follows the spec (C1) -/

theorem accrueDays_eq_sum (acc : Account) (rules : List InterestRule) (y m : ℕ) :
    ∀ n, accrueDays acc rules y m n
      = ∑ i in Finset.range n, dayInterest acc rules (mkDate y m (i + 1)) := by
  intro n
  induction n with
  | zero => simp [accrueDays]
  | succ k ih => rw [accrueDays, ih, Finset.sum_range_succ]

theorem sum_range_succ_eq_Icc (f : ℕ → ℚ) (n : ℕ) :
    ∑ i in Finset.range n, f (i + 1) = ∑ d in Finset.Icc 1 n, f d := by
  induction n with
  | zero => simp
  | succ k ih =>
    rw [Finset.sum_range_succ, ih,
      Finset.sum_Icc_succ_top (Nat.succ_le_succ (Nat.zero_le k))]

theorem dayInterest_eq_spec (acc : Account) (rules : List InterestRule) (d : ℕ)
    (h : rules.Pairwise fun a b => a.date < b.date) :
    dayInterest acc rules d = specDayInterest acc rules d := by
  unfold dayInterest specDayInterest
  simp only [dailyRate_eq_spec rules d h]
  by_cases hb : 0 < acc.get_balance_at_date d <;>
    by_cases hr : 0 < specRateEffectiveOn rules d <;>
    simp [hb, hr]

/-- C1 (amended): for every reachable state, every account and every valid
target month other than December 9999, `calculate_interest` returns exactly
the day-by-day spec sum: over every calendar day of the month (respecting
the month length, including leap-year February), the days on which the
end-of-day balance is positive and the effective rate (latest rule dated on
or before the day) is positive contribute `balance × rate / 100 / 365`, and
the total is rounded half-up to 2 decimal places.  December 9999 is
excluded because there the source raises `ValueError` from
`datetime(10000, 1, 1)` instead of computing anything (see
`calculate_interest_dec9999_counterexample`). -/
theorem calculate_interest_follows_spec (s : BankingSystem) (account ym : String)
    (acc : Account) (y m : ℕ)
    (hreach : Reachable s)
    (hacc : lookupAcc s.accounts account = some acc)
    (hy4 : parseIntStr ⟨ym.data.take 4⟩ = some y)
    (hm4 : parseIntStr ⟨ym.data.drop 4⟩ = some m)
    (hy1 : 1 ≤ y) (hy2 : y ≤ 9999) (hm1 : 1 ≤ m) (hm2 : m ≤ 12)
    (hcorner : ¬(m = 12 ∧ y = 9999)) :
    calculate_interest s account ym
      = .ok (quantize2 (∑ d in Finset.Icc 1 (daysInMonth y m),
          specDayInterest acc s.interest_rules (mkDate y m d))) := by
  have hpw := rulesReach_pairwise _ (reachable_rulesReach s hreach)
  unfold calculate_interest
  rw [hacc]
  simp only
  rw [hy4, hm4]
  simp only
  rw [if_pos ⟨hy1, hy2⟩, if_pos ⟨hm1, hm2⟩, if_neg hcorner, accrueDays_eq_sum,
    sum_range_succ_eq_Icc (fun d => dayInterest acc s.interest_rules (mkDate y m d))]
  congr 2
  exact Finset.sum_congr rfl fun d _ =>
    dayInterest_eq_spec acc s.interest_rules (mkDate y m d) hpw

/-- Witness for C1 on the §8 scenario state and month 2023-06. -/
theorem calculate_interest_follows_spec_witness :
    calculate_interest scenarioState "AC001" "202306"
      = .ok (quantize2 (∑ d in Finset.Icc 1 (daysInMonth 2023 6),
          specDayInterest
            ⟨"AC001",
              [⟨20230601, "AC001", "D", 150, "20230601-01"⟩,
               ⟨20230626, "AC001", "W", 20, "20230626-01"⟩,
               ⟨20230626, "AC001", "W", 100, "20230626-02"⟩], 30⟩
            scenarioState.interest_rules (mkDate 2023 6 d))) :=
  calculate_interest_follows_spec scenarioState "AC001" "202306"
    ⟨"AC001",
      [⟨20230601, "AC001", "D", 150, "20230601-01"⟩,
       ⟨20230626, "AC001", "W", 20, "20230626-01"⟩,
       ⟨20230626, "AC001", "W", 100, "20230626-02"⟩], 30⟩ 2023 6
    scenario_reachable (by with_unfolding_all decide) (by with_unfolding_all decide)
    (by with_unfolding_all decide) (by decide) (by decide) (by decide) (by decide)
    (by decide)

/-- A reachable state holding an account with one deposit dated
1 June 9999. -/
def dec9999State : BankingSystem := stepT initState ["99990601", "AC001", "D", "100.00"]

/-- The ledger of AC001 inside `dec9999State`. -/
def dec9999Acc : Account := ⟨"AC001", [⟨99990601, "AC001", "D", 100, "99990601-01"⟩], 100⟩

/-- Counterexample to C1 as stated: for target month December 9999 the
accrual engine does not return the day-by-day sum at all.  The December
branch of the source computes `datetime(year + 1, 1, 1) = datetime(10000, 1, 1)`
(bank_system.py line 195), which raises `ValueError` because
`datetime.MAXYEAR` is 9999, so the request errors instead of producing the
rounded sum. -/
theorem calculate_interest_dec9999_counterexample :
    calculate_interest dec9999State "AC001" "999912"
      = .error "ValueError: year 10000 is out of range" ∧
    calculate_interest dec9999State "AC001" "999912"
      ≠ .ok (quantize2 (∑ d in Finset.Icc 1 (daysInMonth 9999 12),
          specDayInterest dec9999Acc dec9999State.interest_rules (mkDate 9999 12 d))) :=
  ⟨by with_unfolding_all decide, by with_unfolding_all decide⟩

/-! ## The balance invariant (C2) -/

/-- The per-account invariant of spec §3: the stored running balance is the
sum of deposits plus interest minus withdrawals, and is non-negative. -/
def AccInv (acc : Account) : Prop :=
  acc.balance = sumOfType acc "D" + sumOfType acc "I" - sumOfType acc "W" ∧
  0 ≤ acc.balance

theorem add_transaction_ok_shape (acc : Account) (t : Transaction) (acc1 : Account)
    (h : acc.add_transaction t = .ok acc1) :
    acc1.account_id = acc.account_id ∧
    acc1.transactions = acc.transactions ++ [t] ∧
    ((t.txn_type = "W" ∧ ¬acc.balance < t.amount ∧
        acc1.balance = acc.balance - t.amount) ∨
      ((t.txn_type = "D" ∨ t.txn_type = "I") ∧ acc1.balance = acc.balance + t.amount) ∨
      (¬t.txn_type = "W" ∧ ¬(t.txn_type = "D" ∨ t.txn_type = "I") ∧
        acc1.balance = acc.balance)) := by
  unfold Account.add_transaction at h
  by_cases hW : t.txn_type = "W"
  · rw [if_pos hW] at h
    by_cases hb : acc.balance < t.amount
    · rw [if_pos hb] at h
      cases h
    · rw [if_neg hb] at h
      cases h
      exact ⟨rfl, rfl, Or.inl ⟨hW, hb, rfl⟩⟩
  · rw [if_neg hW] at h
    by_cases hDI : t.txn_type = "D" ∨ t.txn_type = "I"
    · rw [if_pos hDI] at h
      cases h
      exact ⟨rfl, rfl, Or.inr (Or.inl ⟨hDI, rfl⟩)⟩
    · rw [if_neg hDI] at h
      cases h
      exact ⟨rfl, rfl, Or.inr (Or.inr ⟨hW, hDI, rfl⟩)⟩

theorem sumOfType_append (acc1 acc : Account) (t : Transaction) (ty : String)
    (h : acc1.transactions = acc.transactions ++ [t]) :
    sumOfType acc1 ty = sumOfType acc ty + (if t.txn_type = ty then t.amount else 0) := by
  unfold sumOfType
  rw [h, List.filter_append]
  by_cases ht : t.txn_type = ty
  · simp [ht]
  · simp [ht]

theorem AccInv_new (a : String) : AccInv (Account.new a) := by
  constructor <;> simp [Account.new, sumOfType]

theorem AccInv_add (acc : Account) (t : Transaction) (acc1 : Account)
    (hinv : AccInv acc) (h : acc.add_transaction t = .ok acc1)
    (htype : t.txn_type = "D" ∨ t.txn_type = "W" ∨ t.txn_type = "I")
    (hamt : 0 < t.amount) : AccInv acc1 := by
  obtain ⟨_, htx, hbal⟩ := add_transaction_ok_shape acc t acc1 h
  have hD := sumOfType_append acc1 acc t "D" htx
  have hI := sumOfType_append acc1 acc t "I" htx
  have hW := sumOfType_append acc1 acc t "W" htx
  obtain ⟨heq, hnn⟩ := hinv
  rcases hbal with ⟨hty, hno, hb⟩ | ⟨hty, hb⟩ | ⟨h1, h2, _⟩
  · constructor
    · rw [hb, hD, hI, hW, heq]
      simp only [hty]
      simp
      try ring
    · rw [hb]
      have := not_lt.mp hno
      linarith
  · rcases hty with hty | hty
    · constructor
      · rw [hb, hD, hI, hW, heq]
        simp only [hty]
        simp
        try ring
      · rw [hb]
        linarith
    · constructor
      · rw [hb, hD, hI, hW, heq]
        simp only [hty]
        simp
        try ring
      · rw [hb]
        linarith
  · exact absurd htype (by tauto)

/-- Every account of a state satisfies the balance invariant. -/
def SysInv (s : BankingSystem) : Prop :=
  ∀ id acc, lookupAcc s.accounts id = some acc → AccInv acc

theorem SysInv_step_txn (s : BankingSystem) (parts : List String) (o : ServiceOutput)
    (s1 : BankingSystem) (h : input_transaction s parts = .ok (o, s1))
    (hs : SysInv s) : SysInv s1 := by
  rcases input_transaction_ok_cases _ _ _ _ h with ⟨_, rfl⟩ |
    ⟨d, a, t, amt, v, e, acc0, acc1, hparts, hd, hp, hv, he, hty, hcase, hadd, ho, hs1⟩
  · exact hs
  · intro id acc2 hl2
    rw [hs1] at hl2
    simp only at hl2
    by_cases hid : id = a
    · subst hid
      rw [lookupAcc_setAcc_self] at hl2
      cases hl2
      have hinv0 : AccInv acc0 := by
        rcases hcase with ⟨hl, _⟩ | ⟨_, _, rfl⟩
        · exact hs id acc0 hl
        · exact AccInv_new _
      refine AccInv_add acc0 _ acc1 hinv0 hadd ?_ hv
      rcases hty with hty | hty
      · exact Or.inl hty
      · exact Or.inr (Or.inl hty)
    · rw [lookupAcc_setAcc_ne _ _ _ _ hid] at hl2
      exact hs id acc2 hl2

theorem SysInv_step_rule (s : BankingSystem) (parts : List String) (o : ServiceOutput)
    (s1 : BankingSystem) (h : define_interest_rule s parts = (o, s1))
    (hs : SysInv s) : SysInv s1 := by
  obtain ⟨ha, _, _⟩ := define_interest_rule_cases _ _ _ _ h
  intro id acc hl
  rw [ha] at hl
  exact hs id acc hl

theorem SysInv_step_stmt (s : BankingSystem) (parts : List String) (o : ServiceOutput)
    (s1 : BankingSystem) (h : print_statement s parts = .ok (o, s1))
    (hs : SysInv s) : SysInv s1 := by
  rcases print_statement_ok_cases _ _ _ _ h with rfl |
    ⟨a, ym, acc, i, acc1, hparts, hl, hc, hi, hadd, hs1⟩
  · exact hs
  · intro id acc2 hl2
    rw [hs1] at hl2
    simp only at hl2
    by_cases hid : id = a
    · subst hid
      rw [lookupAcc_setAcc_self] at hl2
      cases hl2
      exact AccInv_add acc _ acc1 (hs id acc hl) hadd (Or.inr (Or.inr rfl)) hi
    · rw [lookupAcc_setAcc_ne _ _ _ _ hid] at hl2
      exact hs id acc2 hl2

/-- C2: in every reachable state, every account's stored running balance
equals Σ(deposits) + Σ(interest) − Σ(withdrawals) over its ledger entries,
and is never negative. -/
theorem balance_equation_invariant (s : BankingSystem) (h : Reachable s)
    (id : String) (acc : Account) (hl : lookupAcc s.accounts id = some acc) :
    acc.balance = sumOfType acc "D" + sumOfType acc "I" - sumOfType acc "W" ∧
    0 ≤ acc.balance := by
  have hs : SysInv s := by
    clear hl
    induction h with
    | init => intro i a hla; exact Option.noConfusion hla
    | txn s parts o s1 hr hstep ih => exact SysInv_step_txn s parts o s1 hstep ih
    | rule s parts o s1 hr hstep ih => exact SysInv_step_rule s parts o s1 hstep ih
    | stmt s parts o s1 hr hstep ih => exact SysInv_step_stmt s parts o s1 hstep ih
  exact hs id acc hl

/-- The single account of `oneAccountState`. -/
def acct1 : Account := ⟨"AC001", [⟨20230601, "AC001", "D", 100, "20230601-01"⟩], 100⟩

/-- Witness for C2 on a concrete reachable state. -/
theorem balance_equation_invariant_witness :
    acct1.balance = sumOfType acct1 "D" + sumOfType acct1 "I" - sumOfType acct1 "W" ∧
    0 ≤ acct1.balance :=
  balance_equation_invariant oneAccountState oneAccount_reachable "AC001" acct1
    (by with_unfolding_all decide)

/-! ## Global per-date transaction-id sequence (C5) -/

/-- Number of id-bearing entries dated `dte` in one account. -/
def cntAcc (acc : Account) (dte : ℕ) : ℕ :=
  (acc.transactions.filter fun t => decide (t.date = dte) && decide (t.txn_id ≠ "")).length

theorem idTxnCount_eq_sum (accs : List (String × Account)) (dte : ℕ) :
    idTxnCount accs dte = (accs.map fun kv => cntAcc kv.2 dte).sum := rfl

theorem idTxnCount_cons (kv : String × Account) (rest : List (String × Account)) (dte : ℕ) :
    idTxnCount (kv :: rest) dte = cntAcc kv.2 dte + idTxnCount rest dte := rfl

theorem idTxnCount_append_one (l : List (String × Account)) (k : String) (acc : Account)
    (dte : ℕ) :
    idTxnCount (l ++ [(k, acc)]) dte = idTxnCount l dte + cntAcc acc dte := by
  unfold idTxnCount
  rw [List.map_append, List.sum_append]
  rfl

theorem idTxnCount_setAcc (l : List (String × Account)) (k : String)
    (acc0 acc1 : Account) (dte : ℕ) (hl : lookupAcc l k = some acc0) :
    ∃ n, idTxnCount l dte = cntAcc acc0 dte + n ∧
      idTxnCount (setAcc l k acc1) dte = cntAcc acc1 dte + n := by
  induction l with
  | nil => exact Option.noConfusion hl
  | cons kv rest ih =>
    unfold lookupAcc at hl
    by_cases hk : kv.1 = k
    · rw [if_pos hk] at hl
      cases hl
      refine ⟨idTxnCount rest dte, rfl, ?_⟩
      simp only [setAcc, if_pos hk]
      rfl
    · rw [if_neg hk] at hl
      obtain ⟨n, h1, h2⟩ := ih hl
      refine ⟨cntAcc kv.2 dte + n, ?_, ?_⟩
      · rw [idTxnCount_cons, h1]
        omega
      · simp only [setAcc, if_neg hk]
        rw [idTxnCount_cons, h2]
        omega

theorem cntAcc_append (acc1 acc : Account) (t : Transaction) (dte : ℕ)
    (h : acc1.transactions = acc.transactions ++ [t]) :
    cntAcc acc1 dte = cntAcc acc dte + (if t.date = dte ∧ t.txn_id ≠ "" then 1 else 0) := by
  unfold cntAcc
  rw [h, List.filter_append, List.length_append]
  by_cases ht : t.date = dte ∧ t.txn_id ≠ ""
  · simp [ht.1, ht.2]
  · rcases not_and_or.mp ht with hne | hne <;> simp [hne, ht]

theorem txnId_ne_empty (d : String) (n : ℕ) : d ++ "-" ++ pad2 n ≠ "" := by
  intro h
  have hlen := congrArg String.length h
  rw [String.length_append, String.length_append] at hlen
  have h1 : ("-" : String).length = 1 := rfl
  have h0 : ("" : String).length = 0 := rfl
  omega

/-- The id-counter invariant: for every date, the per-date counter equals the
number of id-bearing entries with that date, summed over all accounts. -/
def CtrInv (s : BankingSystem) : Prop :=
  ∀ dte : ℕ, (lookupCtr s.transaction_counters dte).getD 0 = idTxnCount s.accounts dte

theorem CtrInv_step_txn (s : BankingSystem) (parts : List String) (o : ServiceOutput)
    (s1 : BankingSystem) (h : input_transaction s parts = .ok (o, s1))
    (hc : CtrInv s) : CtrInv s1 := by
  rcases input_transaction_ok_cases _ _ _ _ h with ⟨_, rfl⟩ |
    ⟨d, a, t, amt, v, e, acc0, acc1, hparts, hd, hp, hv, he, hty, hcase, hadd, ho, hs1⟩
  · exact hc
  · intro dte
    obtain ⟨_, htx, _⟩ := add_transaction_ok_shape _ _ _ hadd
    have hdelta := cntAcc_append acc1 acc0 _ dte htx
    rw [hs1]
    simp only
    by_cases hdte : dte = strToNat d
    · subst hdte
      rw [lookupCtr_setCtr_self]
      simp only [Option.getD_some]
      have hnew : cntAcc acc1 (strToNat d) = cntAcc acc0 (strToNat d) + 1 := by
        rw [hdelta, if_pos ⟨rfl, txnId_ne_empty d _⟩]
      rcases hcase with ⟨hl, _⟩ | ⟨hl, _, hacc0⟩
      · obtain ⟨n, h1, h2⟩ := idTxnCount_setAcc s.accounts a acc0 acc1 (strToNat d) hl
        rw [h2, hnew, hc (strToNat d), h1]
        omega
      · rw [setAcc_absent s.accounts a acc1 hl, idTxnCount_append_one, hnew,
          ← hc (strToNat d)]
        have hz : cntAcc acc0 (strToNat d) = 0 := by
          rw [hacc0]
          rfl
        omega
    · rw [lookupCtr_setCtr_ne _ _ _ _ hdte]
      have hnew : cntAcc acc1 dte = cntAcc acc0 dte := by
        rw [hdelta, if_neg (by intro hh; exact hdte hh.1.symm)]
        omega
      rcases hcase with ⟨hl, _⟩ | ⟨hl, _, hacc0⟩
      · obtain ⟨n, h1, h2⟩ := idTxnCount_setAcc s.accounts a acc0 acc1 dte hl
        rw [h2, hnew, hc dte, h1]
      · rw [setAcc_absent s.accounts a acc1 hl, idTxnCount_append_one, hnew, ← hc dte]
        have hz : cntAcc acc0 dte = 0 := by
          rw [hacc0]
          rfl
        omega

theorem CtrInv_step_rule (s : BankingSystem) (parts : List String) (o : ServiceOutput)
    (s1 : BankingSystem) (h : define_interest_rule s parts = (o, s1))
    (hc : CtrInv s) : CtrInv s1 := by
  obtain ⟨ha, hctr, _⟩ := define_interest_rule_cases _ _ _ _ h
  intro dte
  rw [ha, hctr]
  exact hc dte

theorem CtrInv_step_stmt (s : BankingSystem) (parts : List String) (o : ServiceOutput)
    (s1 : BankingSystem) (h : print_statement s parts = .ok (o, s1))
    (hc : CtrInv s) : CtrInv s1 := by
  rcases print_statement_ok_cases _ _ _ _ h with rfl |
    ⟨a, ym, acc, i, acc1, hparts, hl, hcalc, hi, hadd, hs1⟩
  · exact hc
  · intro dte
    obtain ⟨_, htx, _⟩ := add_transaction_ok_shape _ _ _ hadd
    have hdelta := cntAcc_append acc1 acc _ dte htx
    rw [hs1]
    simp only
    obtain ⟨n, h1, h2⟩ := idTxnCount_setAcc s.accounts a acc acc1 dte hl
    have hnew : cntAcc acc1 dte = cntAcc acc dte := by
      rw [hdelta, if_neg (by intro hh; exact hh.2 rfl)]
      omega
    rw [h2, hnew, hc dte, h1]

theorem reachable_ctrInv (s : BankingSystem) (h : Reachable s) : CtrInv s := by
  induction h with
  | init => intro dte; rfl
  | txn s parts o s1 hr hstep ih => exact CtrInv_step_txn s parts o s1 hstep ih
  | rule s parts o s1 hr hstep ih => exact CtrInv_step_rule s parts o s1 hstep ih
  | stmt s parts o s1 hr hstep ih => exact CtrInv_step_stmt s parts o s1 hstep ih

/-- C5: in every reachable state, a successful transaction-intake request
with date token `D` posts an entry whose id is `D ++ "-" ++` the 1-based
global sequence number for date `D`, zero-padded to 2 digits.  The sequence
number is the count of id-bearing entries dated `D` across *all* accounts
plus one (one shared counter keyed by date, not per-account), and the global
count for `D` advances by exactly one. -/
theorem txn_id_global_sequence (s : BankingSystem) (hreach : Reachable s)
    (date_str account ttype_str amt_str : String) (o : ServiceOutput) (s1 : BankingSystem)
    (h : input_transaction s [date_str, account, ttype_str, amt_str] = .ok (o, s1))
    (hsucc : ∀ m, o ≠ .msg m) :
    ∃ acc1 pre v,
      lookupAcc s1.accounts account = some acc1 ∧
      acc1.transactions = pre ++
        [⟨strToNat date_str, account, strUpper ttype_str, v,
          date_str ++ "-" ++ pad2 (idTxnCount s.accounts (strToNat date_str) + 1)⟩] ∧
      idTxnCount s1.accounts (strToNat date_str)
        = idTxnCount s.accounts (strToNat date_str) + 1 := by
  rcases input_transaction_ok_cases _ _ _ _ h with ⟨⟨m, hm⟩, _⟩ |
    ⟨d, a, t, amt, v, e, acc0, acc1, hparts, hd, hp, hv, he, hty, hcase, hadd, ho, hs1⟩
  · exact absurd hm (hsucc m)
  · injection hparts with h1 hrest
    injection hrest with h2 hrest2
    injection hrest2 with h3 hrest3
    injection hrest3 with h4 _
    subst h1
    subst h2
    subst h3
    subst h4
    have hctr := reachable_ctrInv s hreach (strToNat date_str)
    have hctr1 := reachable_ctrInv s1
      (Reachable.txn s _ o s1 hreach h) (strToNat date_str)
    obtain ⟨_, htx, _⟩ := add_transaction_ok_shape _ _ _ hadd
    refine ⟨acc1, acc0.transactions, v, ?_, ?_, ?_⟩
    · rw [hs1]
      simp only
      exact lookupAcc_setAcc_self _ _ _
    · rw [htx, hctr]
    · rw [hs1] at hctr1
      simp only at hctr1
      rw [lookupCtr_setCtr_self] at hctr1
      simp only [Option.getD_some] at hctr1
      rw [hs1]
      simp only
      omega

/-- A state holding one deposit into AC002 dated 2023-06-26. -/
def preState5 : BankingSystem := stepT initState ["20230626", "AC002", "D", "50.00"]

/-- `preState5` after a deposit into a different account, AC001, on the same
date: the new entry takes sequence number 2 of that date. -/
def postState5 : BankingSystem := stepT preState5 ["20230626", "AC001", "D", "10.00"]

/-- Witness for C5: with one dated-20230626 entry already posted to AC002,
the next successful transaction dated 20230626, on account AC001, receives
id `20230626-02`, and the global count for that date becomes 2. -/
theorem txn_id_global_sequence_witness :
    ∃ acc1 pre v,
      lookupAcc postState5.accounts "AC001" = some acc1 ∧
      acc1.transactions = pre ++
        [⟨strToNat "20230626", "AC001", strUpper "D", v,
          "20230626" ++ "-" ++ pad2 (idTxnCount preState5.accounts (strToNat "20230626") + 1)⟩] ∧
      idTxnCount postState5.accounts (strToNat "20230626")
        = idTxnCount preState5.accounts (strToNat "20230626") + 1 :=
  txn_id_global_sequence preState5 (reachable_stepT _ _ Reachable.init)
    "20230626" "AC001" "D" "10.00"
    (.accountStatement "AC001" [⟨20230626, "AC001", "D", 10, "20230626-02"⟩]) postState5
    (by with_unfolding_all decide)
    (fun m hm => nomatch hm)

/-! ## Statement generation posts interest, twice (C7) -/

theorem add_transaction_I (acc : Account) (dte : ℕ) (a : String) (amt : ℚ) :
    acc.add_transaction ⟨dte, a, "I", amt, ""⟩
      = .ok ⟨acc.account_id, acc.transactions ++ [⟨dte, a, "I", amt, ""⟩],
          acc.balance + amt⟩ := by
  unfold Account.add_transaction
  rw [if_neg (by simp), if_pos (Or.inr rfl)]

theorem parseIntStr_digits (cs : List Char) (hne : cs ≠ [])
    (hd : cs.all Char.isDigit = true) :
    parseIntStr ⟨cs⟩ = some (digitsToNat cs) := by
  unfold parseIntStr
  rw [if_pos ⟨hne, hd⟩]

theorem take4_parse (ym : String) (hlen : ym.length = 6)
    (hdig : ym.data.all Char.isDigit = true) :
    parseIntStr ⟨ym.data.take 4⟩ = some (digitsToNat (ym.data.take 4)) := by
  apply parseIntStr_digits
  · intro h
    have := congrArg List.length h
    rw [List.length_take] at this
    have hl : ym.data.length = 6 := hlen
    simp at this
    omega
  · rw [List.all_eq_true] at hdig ⊢
    intro x hx
    exact hdig x (List.mem_of_mem_take hx)

theorem drop4_parse (ym : String) (hlen : ym.length = 6)
    (hdig : ym.data.all Char.isDigit = true) :
    parseIntStr ⟨ym.data.drop 4⟩ = some (digitsToNat (ym.data.drop 4)) := by
  apply parseIntStr_digits
  · intro h
    have := congrArg List.length h
    rw [List.length_drop] at this
    have hl : ym.data.length = 6 := hlen
    simp at this
    omega
  · rw [List.all_eq_true] at hdig ⊢
    intro x hx
    exact hdig x (List.mem_of_mem_drop hx)

/-- Forward evaluation of `calculate_interest` for a known account and a
valid year-month other than December 9999. -/
theorem calculate_interest_eval (s : BankingSystem) (account ym : String)
    (acc : Account) (y m : ℕ)
    (hacc : lookupAcc s.accounts account = some acc)
    (hpy : parseIntStr ⟨ym.data.take 4⟩ = some y)
    (hpm : parseIntStr ⟨ym.data.drop 4⟩ = some m)
    (hy : 1 ≤ y ∧ y ≤ 9999) (hm : 1 ≤ m ∧ m ≤ 12)
    (hcorner : ¬(m = 12 ∧ y = 9999)) :
    calculate_interest s account ym
      = .ok (quantize2 (accrueDays acc s.interest_rules y m (daysInMonth y m))) := by
  unfold calculate_interest
  rw [hacc]
  simp only
  rw [hpy, hpm]
  simp only
  rw [if_pos hy, if_pos hm, if_neg hcorner]

/-- Inversion of a successful `calculate_interest`: the parsed year and
month were in `datetime` range, the month was not December 9999 (where the
source raises), and the result is the rounded accrual sum. -/
theorem calculate_interest_inv (s : BankingSystem) (account ym : String)
    (acc : Account) (y m : ℕ) (i : ℚ)
    (hacc : lookupAcc s.accounts account = some acc)
    (hpy : parseIntStr ⟨ym.data.take 4⟩ = some y)
    (hpm : parseIntStr ⟨ym.data.drop 4⟩ = some m)
    (hcalc : calculate_interest s account ym = .ok i) :
    (1 ≤ y ∧ y ≤ 9999) ∧ (1 ≤ m ∧ m ≤ 12) ∧ ¬(m = 12 ∧ y = 9999) ∧
    i = quantize2 (accrueDays acc s.interest_rules y m (daysInMonth y m)) := by
  unfold calculate_interest at hcalc
  rw [hacc] at hcalc
  simp only at hcalc
  rw [hpy, hpm] at hcalc
  simp only at hcalc
  by_cases hy : 1 ≤ y ∧ y ≤ 9999
  · rw [if_pos hy] at hcalc
    by_cases hm : 1 ≤ m ∧ m ≤ 12
    · rw [if_pos hm] at hcalc
      by_cases hc : m = 12 ∧ y = 9999
      · rw [if_pos hc] at hcalc
        cases hcalc
      · rw [if_neg hc] at hcalc
        exact ⟨hy, hm, hc, (Except.ok.inj hcalc).symm⟩
    · rw [if_neg hm] at hcalc
      cases hcalc
  · rw [if_neg hy] at hcalc
    cases hcalc

/-- Forward evaluation of `print_statement` in the interest-posting case. -/
theorem print_statement_posts (s : BankingSystem) (account ym : String)
    (acc : Account) (i : ℚ)
    (hacc : lookupAcc s.accounts account = some acc)
    (hlen : ym.length = 6) (hdig : ym.data.all Char.isDigit = true)
    (hcalc : calculate_interest s account ym = .ok i) (hi : 0 < i) :
    ∃ o1, print_statement s [account, ym]
      = .ok (o1, ⟨setAcc s.accounts account
          ⟨acc.account_id, acc.transactions ++
            [⟨mkDate (digitsToNat (ym.data.take 4)) (digitsToNat (ym.data.drop 4))
                (daysInMonth (digitsToNat (ym.data.take 4)) (digitsToNat (ym.data.drop 4))),
              account, "I", i, ""⟩],
            acc.balance + i⟩,
          s.interest_rules, s.transaction_counters⟩) := by
  unfold print_statement
  simp only
  rw [if_pos ⟨hlen, hdig⟩, hacc]
  simp only
  rw [hcalc]
  simp only
  rw [if_pos hi, add_transaction_I]
  exact ⟨_, rfl⟩

theorem balance_at_append (acc1 acc : Account) (t : Transaction)
    (htx : acc1.transactions = acc.transactions ++ [t])
    (hW : ¬t.txn_type = "W") (d : ℕ) :
    acc1.get_balance_at_date d
      = acc.get_balance_at_date d + (if t.date ≤ d then t.amount else 0) := by
  unfold Account.get_balance_at_date
  rw [htx, List.foldl_append]
  simp only [List.foldl_cons, List.foldl_nil]
  by_cases hd : t.date ≤ d
  · rw [if_pos hd, if_neg hW, if_pos hd]
  · rw [if_neg hd, if_neg hd, add_zero]

theorem dayInterest_nonneg (acc : Account) (rules : List InterestRule) (d : ℕ) :
    0 ≤ dayInterest acc rules d := by
  simp only [dayInterest]
  split_ifs with h1 h2
  · positivity
  · exact le_refl 0
  · exact le_refl 0

theorem dayInterest_mono (acc1 acc : Account) (rules : List InterestRule) (d : ℕ)
    (hb : acc.get_balance_at_date d ≤ acc1.get_balance_at_date d) :
    dayInterest acc rules d ≤ dayInterest acc1 rules d := by
  by_cases h1 : 0 < acc.get_balance_at_date d
  · have h2 : 0 < acc1.get_balance_at_date d := lt_of_lt_of_le h1 hb
    simp only [dayInterest]
    rw [if_pos h1, if_pos h2]
    by_cases hr : 0 < dailyRate rules d
    · rw [if_pos hr, if_pos hr]
      gcongr
    · rw [if_neg hr, if_neg hr]
  · have hz : dayInterest acc rules d = 0 := by
      simp only [dayInterest]
      rw [if_neg h1]
    rw [hz]
    exact dayInterest_nonneg acc1 rules d

theorem accrueDays_nonneg (acc : Account) (rules : List InterestRule) (y m : ℕ) :
    ∀ n, 0 ≤ accrueDays acc rules y m n := by
  intro n
  induction n with
  | zero => exact le_refl 0
  | succ k ih => exact add_nonneg ih (dayInterest_nonneg acc rules _)

theorem accrueDays_mono (acc1 acc : Account) (rules : List InterestRule) (y m : ℕ)
    (hb : ∀ d, acc.get_balance_at_date d ≤ acc1.get_balance_at_date d) :
    ∀ n, accrueDays acc rules y m n ≤ accrueDays acc1 rules y m n := by
  intro n
  induction n with
  | zero => exact le_refl 0
  | succ k ih => exact add_le_add ih (dayInterest_mono acc1 acc rules _ (hb _))

theorem quantize2_mono_of_nonneg (x y : ℚ) (hx : 0 ≤ x) (hxy : x ≤ y) :
    quantize2 x ≤ quantize2 y := by
  have hy : 0 ≤ y := le_trans hx hxy
  unfold quantize2
  rw [if_pos hx, if_pos hy]
  have h1 : (⌊x * 100 + 1 / 2⌋ : ℤ) ≤ ⌊y * 100 + 1 / 2⌋ :=
    Int.floor_le_floor (by linarith)
  have h2 : ((⌊x * 100 + 1 / 2⌋ : ℤ) : ℚ) ≤ ((⌊y * 100 + 1 / 2⌋ : ℤ) : ℚ) := by
    exact_mod_cast h1
  linarith

/-- C7: statement generation is not idempotent.  Whenever the computed
interest for an account and month is positive, `print_statement` posts a new
Interest entry dated the last day of the month; calling it a second time for
the same account and month posts a second Interest entry (of amount at least
as large) and leaves a strictly larger balance after each call. -/
theorem statement_posts_interest_twice (s : BankingSystem) (account ym : String)
    (acc : Account) (i : ℚ)
    (hacc : lookupAcc s.accounts account = some acc)
    (hlen : ym.length = 6) (hdig : ym.data.all Char.isDigit = true)
    (hcalc : calculate_interest s account ym = .ok i) (hi : 0 < i) :
    ∃ o1 s1 acc1 i2 o2 s2 acc2,
      print_statement s [account, ym] = .ok (o1, s1) ∧
      lookupAcc s1.accounts account = some acc1 ∧
      acc1.transactions = acc.transactions ++
        [⟨mkDate (digitsToNat (ym.data.take 4)) (digitsToNat (ym.data.drop 4))
            (daysInMonth (digitsToNat (ym.data.take 4)) (digitsToNat (ym.data.drop 4))),
          account, "I", i, ""⟩] ∧
      acc1.balance = acc.balance + i ∧
      calculate_interest s1 account ym = .ok i2 ∧ i ≤ i2 ∧ 0 < i2 ∧
      print_statement s1 [account, ym] = .ok (o2, s2) ∧
      lookupAcc s2.accounts account = some acc2 ∧
      acc2.transactions = acc1.transactions ++
        [⟨mkDate (digitsToNat (ym.data.take 4)) (digitsToNat (ym.data.drop 4))
            (daysInMonth (digitsToNat (ym.data.take 4)) (digitsToNat (ym.data.drop 4))),
          account, "I", i2, ""⟩] ∧
      acc2.balance = acc1.balance + i2 ∧
      acc.balance < acc1.balance ∧ acc1.balance < acc2.balance := by
  set Y := digitsToNat (ym.data.take 4) with hY
  set M := digitsToNat (ym.data.drop 4) with hM
  set L := mkDate Y M (daysInMonth Y M) with hL
  have hpy : parseIntStr ⟨ym.data.take 4⟩ = some Y := take4_parse ym hlen hdig
  have hpm : parseIntStr ⟨ym.data.drop 4⟩ = some M := drop4_parse ym hlen hdig
  obtain ⟨hyr, hmr, hcor, hieq⟩ :=
    calculate_interest_inv s account ym acc Y M i hacc hpy hpm hcalc
  obtain ⟨o1, hps1⟩ := print_statement_posts s account ym acc i hacc hlen hdig hcalc hi
  rw [← hY, ← hM, ← hL] at hps1
  set acc1 : Account :=
    ⟨acc.account_id, acc.transactions ++ [⟨L, account, "I", i, ""⟩], acc.balance + i⟩
    with hacc1
  set s1 : BankingSystem :=
    ⟨setAcc s.accounts account acc1, s.interest_rules, s.transaction_counters⟩ with hs1
  have hl1 : lookupAcc s1.accounts account = some acc1 := lookupAcc_setAcc_self _ _ _
  have hbmono : ∀ d, acc.get_balance_at_date d ≤ acc1.get_balance_at_date d := by
    intro d
    rw [balance_at_append acc1 acc ⟨L, account, "I", i, ""⟩ (by rw [hacc1]) (by simp) d]
    have h0 : (0 : ℚ) ≤
        (if (⟨L, account, "I", i, ""⟩ : Transaction).date ≤ d then i else 0) := by
      split_ifs
      · exact le_of_lt hi
      · exact le_refl 0
    linarith
  set i2 := quantize2 (accrueDays acc1 s.interest_rules Y M (daysInMonth Y M)) with hi2
  have hmono : i ≤ i2 := by
    rw [hieq, hi2]
    exact quantize2_mono_of_nonneg _ _
      (accrueDays_nonneg acc s.interest_rules Y M _)
      (accrueDays_mono acc1 acc s.interest_rules Y M hbmono _)
  have hi2pos : 0 < i2 := lt_of_lt_of_le hi hmono
  have hcalc2 : calculate_interest s1 account ym = .ok i2 :=
    calculate_interest_eval s1 account ym acc1 Y M hl1 hpy hpm hyr hmr hcor
  obtain ⟨o2, hps2⟩ :=
    print_statement_posts s1 account ym acc1 i2 hl1 hlen hdig hcalc2 hi2pos
  rw [← hY, ← hM, ← hL] at hps2
  set acc2 : Account :=
    ⟨acc1.account_id, acc1.transactions ++ [⟨L, account, "I", i2, ""⟩], acc1.balance + i2⟩
    with hacc2
  set s2 : BankingSystem :=
    ⟨setAcc s1.accounts account acc2, s1.interest_rules, s1.transaction_counters⟩ with hs2
  have hl2 : lookupAcc s2.accounts account = some acc2 := lookupAcc_setAcc_self _ _ _
  refine ⟨o1, s1, acc1, i2, o2, s2, acc2, hps1, hl1, ?_, ?_, hcalc2, hmono, hi2pos,
    hps2, hl2, ?_, ?_, ?_, ?_⟩
  · rw [hacc1]
  · rw [hacc1]
  · rw [hacc2]
  · rw [hacc2]
  · rw [hacc1]
    simp only
    linarith
  · rw [hacc2]
    simp only
    linarith

/-- The ledger of AC001 inside `scenarioState`. -/
def scenarioAcc : Account :=
  ⟨"AC001",
    [⟨20230601, "AC001", "D", 150, "20230601-01"⟩,
     ⟨20230626, "AC001", "W", 20, "20230626-01"⟩,
     ⟨20230626, "AC001", "W", 100, "20230626-02"⟩], 30⟩

/-- Witness for C7: in the §8 scenario (June 2023 interest 0.22 > 0),
printing the statement twice posts two Interest entries and strictly grows
the balance each time. -/
theorem statement_posts_interest_twice_witness :
    ∃ o1 s1 acc1 i2 o2 s2 acc2,
      print_statement scenarioState ["AC001", "202306"] = .ok (o1, s1) ∧
      lookupAcc s1.accounts "AC001" = some acc1 ∧
      acc1.transactions = scenarioAcc.transactions ++
        [⟨mkDate (digitsToNat ("202306".data.take 4)) (digitsToNat ("202306".data.drop 4))
            (daysInMonth (digitsToNat ("202306".data.take 4))
              (digitsToNat ("202306".data.drop 4))),
          "AC001", "I", 11 / 50, ""⟩] ∧
      acc1.balance = scenarioAcc.balance + 11 / 50 ∧
      calculate_interest s1 "AC001" "202306" = .ok i2 ∧ 11 / 50 ≤ i2 ∧ 0 < i2 ∧
      print_statement s1 ["AC001", "202306"] = .ok (o2, s2) ∧
      lookupAcc s2.accounts "AC001" = some acc2 ∧
      acc2.transactions = acc1.transactions ++
        [⟨mkDate (digitsToNat ("202306".data.take 4)) (digitsToNat ("202306".data.drop 4))
            (daysInMonth (digitsToNat ("202306".data.take 4))
              (digitsToNat ("202306".data.drop 4))),
          "AC001", "I", i2, ""⟩] ∧
      acc2.balance = acc1.balance + i2 ∧
      scenarioAcc.balance < acc1.balance ∧ acc1.balance < acc2.balance :=
  statement_posts_interest_twice scenarioState "AC001" "202306" scenarioAcc (11 / 50)
    (by with_unfolding_all decide) (by with_unfolding_all decide)
    (by with_unfolding_all decide) (by with_unfolding_all decide)
    (by with_unfolding_all decide)

end AwesomeBank
